import Mathlib

/-!
Verification of the Connecto chat hub (src/api/Connecto.Api/Services/ChatHub.cs).

The hub is a SignalR class whose static concurrent dictionaries hold all server
state.  We embed that state shallowly: each concurrent dictionary becomes an
association list, each concurrent set a string list, and each hub method an
atomic transition on a `HubState`.  Outbound SignalR sends become an appended
event log.  Wall-clock timestamps and random GUID session keys are supplied as
explicit parameters of the transitions; event timestamp fields are omitted.
The grace window of `OnDisconnectedAsync` is modelled by splitting the method
into its two phases: the immediate detach, and the re-check that runs after
`Task.Delay`, which may fire at any later point.
-/

namespace Connecto

/-- Membership test on a list of strings (models `HashSet`/`ConcurrentDictionary` key sets). -/
def scontains : List String → String → Bool
  | [], _ => false
  | x :: xs, k => if x = k then true else scontains xs k

/-- Remove every occurrence of a key (models `TryRemove` on key sets and the
queue rebuild `WaitingQueue.Where(u => u != excludeUserId)`). -/
def sremove : List String → String → List String
  | [], _ => []
  | x :: xs, k => if x = k then sremove xs k else x :: sremove xs k

/-- Add a key if absent (models `IdleIndex[userId] = 0` on a dictionary used as a set). -/
def sinsert (l : List String) (k : String) : List String :=
  if scontains l k then l else l ++ [k]

/-- Lookup in an association list (models `ConcurrentDictionary.TryGetValue`). -/
def aget {β : Type} : List (String × β) → String → Option β
  | [], _ => none
  | (k', v) :: t, k => if k' = k then some v else aget t k

/-- Insert or replace (models the dictionary indexer `d[k] = v`). -/
def aset {β : Type} : List (String × β) → String → β → List (String × β)
  | [], k, v => [(k, v)]
  | (k', v') :: t, k, v => if k' = k then (k, v) :: t else (k', v') :: aset t k v

/-- Remove a key (models `ConcurrentDictionary.TryRemove`). -/
def aremove {β : Type} : List (String × β) → String → List (String × β)
  | [], _ => []
  | (k', v') :: t, k => if k' = k then aremove t k else (k', v') :: aremove t k

/-- Key-presence test (models `ConcurrentDictionary.ContainsKey`). -/
def acontains {β : Type} (l : List (String × β)) (k : String) : Bool :=
  (aget l k).isSome

/-- Does the participant pair of a session contain the given identity
(models `kvp.Value.user1 == userId || kvp.Value.user2 == userId`). -/
def pairHas (ab : String × String) (u : String) : Bool :=
  if ab.1 = u then true else if ab.2 = u then true else false

/-- Payloads of outbound SignalR sends, one constructor per anonymous object
shape used in the hub (timestamp fields omitted). -/
inductive Payload where
  | text (s : String)
  | cid (c : String)
  | count (n : Nat)
  | sessionUpdate (sessionId meId meName partnerId partnerName key : String)
  | msg (userId fromName text : String)
  | voice (userId fromName audio : String)
  | image (userId fromName b64 : String)
  | uploading (fromName : String)
  | callEvt (fromField sessionId : String)
deriving DecidableEq, Repr

/-- An outbound delivery: to one connection (`Clients.Client`), to a routing
group (`Clients.Group`), or to everyone (`Clients.All`). -/
inductive Evt where
  | toConn (c method : String) (p : Payload)
  | toGroup (g method : String) (p : Payload)
  | toAll (method : String) (p : Payload)
deriving DecidableEq, Repr

/-- The hub's static state, plus the set of physically open connections and the
log of outbound events. -/
structure HubState where
  /-- connection ids with an open transport (not a hub dictionary: tracks which
  connections can still invoke hub methods). -/
  live : List String
  /-- `UserConnectionMap`: userId -> connection ids. -/
  userConnectionMap : List (String × List String)
  /-- `ConnectionProfiles`: connectionId -> (userId, guestName). -/
  connectionProfiles : List (String × String × String)
  /-- `WaitingQueue` (the `ConcurrentQueue` contents, head first). -/
  waitingQueue : List String
  /-- `WaitingIndex` key set. -/
  waitingIndex : List String
  /-- `IdleIndex` key set. -/
  idleIndex : List String
  /-- `ActiveSessions`: sessionId -> (user1, user2). -/
  activeSessions : List (String × String × String)
  /-- `SessionKeys`: sessionId -> key. -/
  sessionKeys : List (String × String)
  /-- log of outbound sends, oldest first. -/
  events : List Evt
deriving DecidableEq, Repr

/-- The state at process start: every dictionary empty. -/
def init : HubState :=
  ⟨[], [], [], [], [], [], [], [], []⟩

/-- `TryGetAnyGuestNameForUser`: first non-empty guest name among the user's
connections. -/
def tryGetAnyGuestName (s : HubState) (uid : String) : Option String :=
  match aget s.userConnectionMap uid with
  | none => none
  | some conns =>
    conns.findSome? (fun cid =>
      match aget s.connectionProfiles cid with
      | some (_, g) => if g = "" then none else some g
      | none => none)

/-- `SendToUser`: one delivery per connection of the user; nothing when the
user has no connection entry or it is empty. -/
def sendToUser (s : HubState) (uid method : String) (p : Payload) : List Evt :=
  match aget s.userConnectionMap uid with
  | none => []
  | some conns => if conns.isEmpty then [] else conns.map (fun cid => Evt.toConn cid method p)

/-- `BroadcastActiveUserCount`: `ConnectionProfiles.Count` to all clients. -/
def countEvt (profiles : List (String × String × String)) : Evt :=
  Evt.toAll "ActiveUserCountUpdated" (Payload.count profiles.length)

/-- Is the matched user stale: `!UserConnectionMap.TryGetValue(m, out c) || c.Count == 0`. -/
def staleUser (s : HubState) (u : String) : Bool :=
  match aget s.userConnectionMap u with
  | some conns => conns.isEmpty
  | none => true

/-- `EnqueueWaiting`: clear from idle, then enqueue only if `WaitingIndex.TryAdd` succeeds. -/
def enqueueWaitingS (uid : String) (s : HubState) : HubState :=
  let s1 := { s with idleIndex := sremove s.idleIndex uid }
  if scontains s1.waitingIndex uid then s1
  else { s1 with
          waitingQueue := s1.waitingQueue ++ [uid],
          waitingIndex := s1.waitingIndex ++ [uid] }

/-- `TryDequeueWaiting`: pop until a head still present in `WaitingIndex` is
found; returns the match (if any) with the remaining queue and index. -/
def tryDequeueWaiting : List String → List String → Option String × List String × List String
  | [], wi => (none, [], wi)
  | u :: q, wi => if scontains wi u then (some u, q, sremove wi u) else tryDequeueWaiting q wi

/-- `MoveToIdle`: out of the waiting index, into the idle index (the queue is untouched). -/
def moveToIdleS (uid : String) (s : HubState) : HubState :=
  { s with waitingIndex := sremove s.waitingIndex uid, idleIndex := sinsert s.idleIndex uid }

/-- `RemoveFromIdle`: purge the identity from both indices and rebuild the
queue excluding it. -/
def removeFromIdleS (uid : String) (s : HubState) : HubState :=
  if uid = "" then s
  else { s with
          waitingQueue := sremove s.waitingQueue uid,
          waitingIndex := sremove s.waitingIndex uid,
          idleIndex := sremove s.idleIndex uid }

/-- `OnConnectedAsync`: an empty identity is rejected and the connection
aborted; otherwise record the connection and its profile and broadcast the
user count. -/
def onConnected (c uid : String) (s : HubState) : HubState :=
  if uid = "" then
    { s with events := s.events ++ [Evt.toConn c "Error" (Payload.text "Missing userId")] }
  else
    let conns :=
      match aget s.userConnectionMap uid with
      | some cs => if scontains cs c then cs else cs ++ [c]
      | none => [c]
    let p2 := aset s.connectionProfiles c (uid, "")
    { s with
        live := s.live ++ [c],
        userConnectionMap := aset s.userConnectionMap uid conns,
        connectionProfiles := p2,
        events := s.events ++ [Evt.toConn c "ReceiveConnectionId" (Payload.cid c), countEvt p2] }

/-- `RegisterUser`: update the guest name only when the connection already has
a profile. -/
def registerUser (c name : String) (s : HubState) : HubState :=
  match aget s.connectionProfiles c with
  | some (uid, _) => { s with connectionProfiles := aset s.connectionProfiles c (uid, name) }
  | none => s

/-- `JoinChat`: dequeue a waiting candidate; a stale or self candidate
re-enqueues the caller; otherwise create the session, purge both identities
from the pools, and fan out symmetric `SessionUpdate` payloads. -/
def joinChat (c ts key : String) (s : HubState) : HubState :=
  match aget s.connectionProfiles c with
  | none =>
    { s with events := s.events ++ [Evt.toConn c "Waiting" (Payload.text "User not registered properly.")] }
  | some (uid, _) =>
    match tryDequeueWaiting s.waitingQueue s.waitingIndex with
    | (none, q1, w1) =>
      let s2 := enqueueWaitingS uid { s with waitingQueue := q1, waitingIndex := w1 }
      { s2 with events := s2.events ++ [Evt.toConn c "Waiting" (Payload.text "Waiting for a match...")] }
    | (some m, q1, w1) =>
      let sMid := { s with waitingQueue := q1, waitingIndex := w1 }
      if staleUser s m then
        let s2 := enqueueWaitingS uid sMid
        { s2 with events := s2.events ++ [Evt.toConn c "Waiting" (Payload.text "Waiting for a match...")] }
      else if m = uid then
        let s2 := enqueueWaitingS uid sMid
        { s2 with events := s2.events ++ [Evt.toConn c "Waiting" (Payload.text "Waiting for a match...")] }
      else
        let sid := uid ++ "-" ++ m ++ "-" ++ ts
        let s2 := removeFromIdleS m (removeFromIdleS uid sMid)
        let meName := (tryGetAnyGuestName s uid).getD "Unknown"
        let pName := (tryGetAnyGuestName s m).getD "Unknown"
        { s2 with
            activeSessions := aset s2.activeSessions sid (uid, m),
            sessionKeys := aset s2.sessionKeys sid key,
            events := s2.events
              ++ sendToUser s uid "SessionUpdate" (Payload.sessionUpdate sid uid meName m pName key)
              ++ sendToUser s m "SessionUpdate" (Payload.sessionUpdate sid m pName uid meName key) }

/-- `SkipChat`: if the session id is present, remove it, notify both sides and
move both participants to idle. -/
def skipChat (c sid : String) (s : HubState) : HubState :=
  match aget s.connectionProfiles c with
  | none => s
  | some (uid, _) =>
    let skipperName := (tryGetAnyGuestName s uid).getD "Partner"
    match aget s.activeSessions sid with
    | none => s
    | some (u1, u2) =>
      let other := if u1 = uid then u2 else u1
      let s1 := { s with activeSessions := aremove s.activeSessions sid }
      let ev := sendToUser s1 other "PartnerSkipped" (Payload.text (skipperName ++ " left the chat."))
             ++ sendToUser s1 uid "YouSkipped" (Payload.text "You left the chat.")
      let s2 := { s1 with sessionKeys := aremove s1.sessionKeys sid, events := s1.events ++ ev }
      moveToIdleS other (moveToIdleS uid s2)

/-- Session ids of the sessions containing an identity (the snapshot walked by
`NextChat` and `RemoveUser`). -/
def sidsOf (sessions : List (String × String × String)) (uid : String) : List String :=
  (sessions.filter (fun p => pairHas p.2 uid)).map (fun p => p.1)

/-- `NextChat`: drop every session containing the caller together with its key,
re-queue the caller and immediately run `JoinChat`. -/
def nextChat (c ts key : String) (s : HubState) : HubState :=
  match aget s.connectionProfiles c with
  | none => s
  | some (uid, _) =>
    let s1 := { s with
                  activeSessions := s.activeSessions.filter (fun p => !(pairHas p.2 uid)),
                  sessionKeys := s.sessionKeys.filter (fun kv => !(scontains (sidsOf s.activeSessions uid) kv.1)) }
    let s2 := removeFromIdleS uid s1
    let s3 := { s2 with waitingIndex := sremove s2.waitingIndex uid }
    let s4 := enqueueWaitingS uid s3
    joinChat c ts key s4

/-- `SendMessage`: profile, session and membership checks guard the group
broadcast; each failure sends a named error to the caller only. -/
def sendMessage (c sid msg : String) (s : HubState) : HubState :=
  match aget s.connectionProfiles c with
  | none => { s with events := s.events ++ [Evt.toConn c "Error" (Payload.text "User not found.")] }
  | some (uid, _) =>
    match aget s.activeSessions sid with
    | none => { s with events := s.events ++ [Evt.toConn c "Error" (Payload.text "Invalid session.")] }
    | some (u1, u2) =>
      if u1 ≠ uid ∧ u2 ≠ uid then
        { s with events := s.events ++ [Evt.toConn c "Error" (Payload.text "Invalid session for user.")] }
      else
        { s with events := s.events ++
            [Evt.toGroup sid "ReceiveMessage" (Payload.msg uid ((tryGetAnyGuestName s uid).getD "Unknown") msg)] }

/-- `SendVoiceNote`: only the profile check; the group broadcast happens for
any session id. -/
def sendVoiceNote (c sid audio : String) (s : HubState) : HubState :=
  match aget s.connectionProfiles c with
  | none => { s with events := s.events ++ [Evt.toConn c "Error" (Payload.text "User not found.")] }
  | some (uid, _) =>
    { s with events := s.events ++
        [Evt.toGroup sid "ReceiveVoiceNote" (Payload.voice uid ((tryGetAnyGuestName s uid).getD "Unknown") audio)] }

/-- `SendImage`: the `UploadingImage` notice always goes to the group; an
empty payload then stops silently. -/
def sendImage (c sid fromU b64 : String) (s : HubState) : HubState :=
  let s1 := { s with events := s.events ++ [Evt.toGroup sid "UploadingImage" (Payload.uploading fromU)] }
  if b64 = "" then s1
  else
    { s1 with events := s1.events ++
        [Evt.toGroup sid "ReceiveImage" (Payload.image fromU ((tryGetAnyGuestName s1 fromU).getD "Unknown") b64)] }

/-- First phase of `OnDisconnectedAsync`: drop the profile and the connection;
the user-count broadcast is deferred when the last connection just vanished
(it then happens after the grace delay). -/
def disconnectDetach (c : String) (s : HubState) : HubState :=
  let live2 := sremove s.live c
  match aget s.connectionProfiles c with
  | none => { s with live := live2, events := s.events ++ [countEvt s.connectionProfiles] }
  | some (uid, _) =>
    let p2 := aremove s.connectionProfiles c
    match aget s.userConnectionMap uid with
    | some conns =>
      let c2 := sremove conns c
      let m2 := aset s.userConnectionMap uid c2
      if c2.isEmpty then { s with live := live2, connectionProfiles := p2, userConnectionMap := m2 }
      else { s with live := live2, connectionProfiles := p2, userConnectionMap := m2,
                    events := s.events ++ [countEvt p2] }
    | none =>
      { s with live := live2, connectionProfiles := p2, events := s.events ++ [countEvt p2] }

/-- Second phase of `OnDisconnectedAsync`, run after the 20s `Task.Delay`:
re-check the connection count and, only if still zero, tear the identity down
(purge pools, destroy its first session, notify the partner, idle the partner). -/
def graceExpire (uid dname : String) (s : HubState) : HubState :=
  let connected :=
    match aget s.userConnectionMap uid with
    | some conns => !conns.isEmpty
    | none => false
  if connected then { s with events := s.events ++ [countEvt s.connectionProfiles] }
  else
    let s1 := { s with
                  userConnectionMap := aremove s.userConnectionMap uid,
                  waitingIndex := sremove s.waitingIndex uid,
                  idleIndex := sremove s.idleIndex uid,
                  waitingQueue := sremove s.waitingQueue uid }
    match s1.activeSessions.find? (fun p => pairHas p.2 uid) with
    | none => { s1 with events := s1.events ++ [countEvt s1.connectionProfiles] }
    | some (sid, u1, u2) =>
      let other := if u1 = uid then u2 else u1
      let s2 := { s1 with activeSessions := aremove s1.activeSessions sid }
      let ev := sendToUser s2 other "PartnerDisconnected" (Payload.text (dname ++ " left the chat."))
      let s3 := moveToIdleS other s2
      { s3 with sessionKeys := aremove s3.sessionKeys sid,
                events := s3.events ++ ev ++ [countEvt s3.connectionProfiles] }

/-- The per-session loop of `RemoveUser` over the snapshot of `ActiveSessions`. -/
def removeUserSessions (uid : String) : List (String × String × String) → HubState → HubState
  | [], s => s
  | (sid, u1, u2) :: rest, s =>
    if pairHas (u1, u2) uid then
      let other := if u1 = uid then u2 else u1
      let s1 := { s with activeSessions := aremove s.activeSessions sid }
      let nm := (tryGetAnyGuestName s1 uid).getD "Partner"
      let ev := sendToUser s1 other "PartnerDisconnected" (Payload.text (nm ++ " left the chat."))
      let s2 := moveToIdleS other s1
      removeUserSessions uid rest
        { s2 with sessionKeys := aremove s2.sessionKeys sid, events := s2.events ++ ev }
    else removeUserSessions uid rest s

/-- `RemoveUser`: synchronous full teardown of an identity (administrative
path); a no-op when the identity has no connection entry. -/
def removeUser (uid : String) (s : HubState) : HubState :=
  match aget s.userConnectionMap uid with
  | none => s
  | some conns =>
    let s1 := { s with
                  userConnectionMap := aremove s.userConnectionMap uid,
                  connectionProfiles := s.connectionProfiles.filter (fun pr => !(scontains conns pr.1)),
                  waitingIndex := sremove s.waitingIndex uid,
                  idleIndex := sremove s.idleIndex uid,
                  waitingQueue := sremove s.waitingQueue uid }
    removeUserSessions uid s1.activeSessions s1

/-- `JoinSession` (recovery path): late-bind the connection into the group and
create a profile when none exists. -/
def joinSession (c sid uid : String) (s : HubState) : HubState :=
  if acontains s.connectionProfiles c then s
  else { s with connectionProfiles := aset s.connectionProfiles c (uid, "") }

/-- `AcceptCall`: both sides are notified; each `From` field names the
counterpart. -/
def acceptCall (sid fu tu : String) (s : HubState) : HubState :=
  { s with events := s.events
      ++ sendToUser s fu "CallAccepted" (Payload.callEvt tu sid)
      ++ sendToUser s tu "CallAccepted" (Payload.callEvt fu sid) }

/-- `RejectCall`: as in the source, the payload sent to `toUser` carries
`From = toUser` (not the counterpart). -/
def rejectCall (sid fu tu : String) (s : HubState) : HubState :=
  { s with events := s.events
      ++ sendToUser s fu "CallRejected" (Payload.callEvt tu sid)
      ++ sendToUser s tu "CallRejected" (Payload.callEvt tu sid) }

/-- One inbound operation, with the caller's connection id and, where the code
consults the clock or a GUID, the timestamp and key as explicit inputs. -/
inductive Op where
  | connect (c uid : String)
  | register (c name : String)
  | join (c ts key : String)
  | skip (c sid : String)
  | next (c ts key : String)
  | sendMsg (c sid msg : String)
  | sendVoice (c sid audio : String)
  | sendImg (c sid fromU b64 : String)
  | detach (c : String)
  | grace (uid dname : String)
  | removeU (uid : String)
  | joinSess (c sid uid : String)
  | acceptC (c sid fu tu : String)
  | rejectC (c sid fu tu : String)
deriving DecidableEq, Repr

/-- Dispatch an operation to its transition. -/
def step (s : HubState) : Op → HubState
  | Op.connect c uid => onConnected c uid s
  | Op.register c name => registerUser c name s
  | Op.join c ts key => joinChat c ts key s
  | Op.skip c sid => skipChat c sid s
  | Op.next c ts key => nextChat c ts key s
  | Op.sendMsg c sid msg => sendMessage c sid msg s
  | Op.sendVoice c sid audio => sendVoiceNote c sid audio s
  | Op.sendImg c sid fromU b64 => sendImage c sid fromU b64 s
  | Op.detach c => disconnectDetach c s
  | Op.grace uid dname => graceExpire uid dname s
  | Op.removeU uid => removeUser uid s
  | Op.joinSess c sid uid => joinSession c sid uid s
  | Op.acceptC c sid fu tu => acceptCall sid fu tu s
  | Op.rejectC c sid fu tu => rejectCall sid fu tu s

/-- An operation is enabled when its caller has an open transport; a fresh
connection must be new, the grace re-check and the administrative removal are
server-side. -/
def enabledB (s : HubState) : Op → Bool
  | Op.connect c _ => !(scontains s.live c)
  | Op.register c _ => scontains s.live c
  | Op.join c _ _ => scontains s.live c
  | Op.skip c _ => scontains s.live c
  | Op.next c _ _ => scontains s.live c
  | Op.sendMsg c _ _ => scontains s.live c
  | Op.sendVoice c _ _ => scontains s.live c
  | Op.sendImg c _ _ _ => scontains s.live c
  | Op.detach c => scontains s.live c
  | Op.grace _ _ => true
  | Op.removeU _ => true
  | Op.joinSess c _ _ => scontains s.live c
  | Op.acceptC c _ _ _ => scontains s.live c
  | Op.rejectC c _ _ _ => scontains s.live c

/-- Run a list of operations from a state. -/
def runOps (s : HubState) (ops : List Op) : HubState :=
  ops.foldl step s

/-- Check that every operation of the list is allowed by `ok` where it runs. -/
def wfVia (ok : HubState → Op → Bool) (s : HubState) : List Op → Bool
  | [] => true
  | op :: rest => ok s op && wfVia ok (step s op) rest

/-- Check that every operation of the list is enabled where it runs. -/
def wfFrom (s : HubState) : List Op → Bool :=
  wfVia enabledB s

/-- States reachable from `init` by operations allowed by `ok` at the state
where they fire. -/
inductive ReachVia (ok : HubState → Op → Bool) : HubState → Prop where
  | base : ReachVia ok init
  | step {s : HubState} (op : Op) : ReachVia ok s → ok s op = true → ReachVia ok (step s op)

/-- Reachability by arbitrary interleavings of enabled hub operations. -/
def Reach (s : HubState) : Prop := ReachVia enabledB s

/-- Number of active-session entries having the identity as a participant. -/
def countHas (l : List (String × String × String)) (u : String) : Nat :=
  (l.filter (fun p => pairHas p.2 u)).length

/-- A `join` is allowed only when the caller's identity is in no active
session (joins by identities the server has not profiled carry no identity
and are unrestricted). -/
def joinAllowedB (s : HubState) : Op → Bool
  | Op.join c _ _ =>
    match aget s.connectionProfiles c with
    | some (uid, _) => decide (countHas s.activeSessions uid = 0)
    | none => true
  | _ => true

/-- Reachability when joins happen only for identities outside every session. -/
def ReachRestricted (s : HubState) : Prop :=
  ReachVia (fun s' op => enabledB s' op && joinAllowedB s' op) s

/-- Every operation except the `JoinSession` recovery path. -/
def notJoinSessB : Op → Bool
  | Op.joinSess _ _ _ => false
  | _ => true

/-- Reachability without the `JoinSession` recovery operation. -/
def ReachNoJoinSession (s : HubState) : Prop :=
  ReachVia (fun s' op => enabledB s' op && notJoinSessB op) s

/-- Is this delivery a partner-left or partner-disconnected notification. -/
def isPartnerLeftEvt : Evt → Bool
  | Evt.toConn _ m _ => if m = "PartnerDisconnected" then true else if m = "PartnerSkipped" then true else false
  | _ => false

/-- Number of association-list entries carrying a key. -/
def keyCount {β : Type} : List (String × β) → String → Nat
  | [], _ => 0
  | (k1, _) :: t, k => (if k1 = k then 1 else 0) + keyCount t k

/-- The waiting-pool invariant: the presence index holds each identity at most
once and no identity is simultaneously in the presence index and the idle set. -/
def WaitInv (s : HubState) : Prop :=
  s.waitingIndex.Nodup ∧
  ∀ u, scontains s.waitingIndex u = true → scontains s.idleIndex u = false

/-- The session invariant used for C2: each identity is in at most one active
session; waiting identities are in none (except the empty identity, which the
`RemoveFromIdle` guard never purges but which can never be matched because it
never owns a connection entry). -/
def SessInv (s : HubState) : Prop :=
  (∀ u, countHas s.activeSessions u ≤ 1) ∧
  (∀ u, scontains s.waitingIndex u = true → countHas s.activeSessions u = 0 ∨ u = "") ∧
  aget s.userConnectionMap "" = none

/-- The connection-registry invariant used for C7: connections in the
identity map are profiled under the same identity, profiled connections occur
in the map under their profile's identity, profiled connections are live, and
profile keys are unambiguous. -/
def RegInv (s : HubState) : Prop :=
  (∀ uid conns c, aget s.userConnectionMap uid = some conns → scontains conns c = true →
     ∃ g, aget s.connectionProfiles c = some (uid, g)) ∧
  (∀ c uid g, aget s.connectionProfiles c = some (uid, g) →
     ∃ conns, aget s.userConnectionMap uid = some conns ∧ scontains conns c = true) ∧
  (∀ c pr, aget s.connectionProfiles c = some pr → scontains s.live c = true) ∧
  (s.connectionProfiles.map (fun p => p.1)).Nodup

/-- Trace behind the C2 counterexample: alice is matched with bob, re-joins
from a second call while that session is still active, and is matched again. -/
def c2Trace : List Op :=
  [Op.connect "A" "alice", Op.connect "B" "bob", Op.connect "C" "carol",
   Op.join "A" "1" "kA", Op.join "B" "2" "kB", Op.join "C" "3" "kC", Op.join "A" "4" "kD"]

/-- Trace behind the C5 counterexample: alice re-joins while in a session with
bob, then bob skips the session, moving alice to idle while her queue entry
remains. -/
def c5Trace : List Op :=
  [Op.connect "A" "alice", Op.connect "B" "bob",
   Op.join "A" "1" "kA", Op.join "B" "2" "kB", Op.join "A" "3" "kC",
   Op.skip "B" "bob-alice-2"]

/-- Trace behind the C7 counterexample: after an administrative `RemoveUser`,
the still-open connection uses `JoinSession`, which recreates a profile for a
connection that is in no identity entry. -/
def c7Trace : List Op :=
  [Op.connect "A" "alice", Op.removeU "alice", Op.joinSess "A" "s1" "alice"]

/-- Trace behind the C3 counterexample: a connection stripped by `RemoveUser`
late-binds with an empty identity, whose re-queues leave several entries in
the presence index; with a stale head in front of a live waiter, a fresh join
re-queues the caller instead of matching the live waiter. -/
def c3Trace : List Op :=
  [Op.connect "Z" "zed", Op.removeU "zed", Op.joinSess "Z" "sx" "",
   Op.join "Z" "t1" "k1", Op.next "Z" "t2" "k2",
   Op.connect "B" "bob", Op.join "B" "t3" "k3", Op.next "Z" "t4" "k4",
   Op.detach "B", Op.connect "C" "carol", Op.join "C" "t5" "k5",
   Op.connect "D" "dave", Op.join "D" "t6" "k6", Op.detach "C",
   Op.connect "E" "erin"]

/-- State with one connection of alice, used to exercise the relay checks. -/
def c1State : HubState :=
  runOps init [Op.connect "A" "alice"]

/-- State with one connection each of alice and bob. -/
def c8State : HubState :=
  runOps init [Op.connect "A" "alice", Op.connect "B" "bob"]

/-- State where alice and bob are registered and alice waits in the queue. -/
def c4State : HubState :=
  runOps init [Op.connect "A" "alice", Op.connect "B" "bob",
               Op.register "A" "Alice", Op.register "B" "Bob", Op.join "A" "1" "kA"]

/-- State where alice and bob are in an established session. -/
def c6State : HubState :=
  runOps init [Op.connect "A" "alice", Op.connect "B" "bob",
               Op.join "A" "1" "kA", Op.join "B" "2" "kB"]

theorem scontains_iff_mem {l : List String} {k : String} : scontains l k = true ↔ k ∈ l := by
  induction l with
  | nil => simp [scontains]
  | cons x xs ih =>
    constructor
    · intro h
      rw [scontains] at h
      by_cases hx : x = k
      · exact hx ▸ List.mem_cons_self x xs
      · rw [if_neg hx] at h
        exact List.mem_cons_of_mem x (ih.mp h)
    · intro h
      rw [scontains]
      by_cases hx : x = k
      · rw [if_pos hx]
      · rw [if_neg hx]
        rcases List.mem_cons.mp h with h1 | h2
        · exact absurd h1.symm hx
        · exact ih.mpr h2

theorem scontains_append (l1 l2 : List String) (k : String) :
    scontains (l1 ++ l2) k = (scontains l1 k || scontains l2 k) := by
  induction l1 with
  | nil => rw [List.nil_append, scontains, Bool.false_or]
  | cons x xs ih =>
    rw [List.cons_append, scontains, scontains]
    by_cases h : x = k
    · rw [if_pos h, if_pos h, Bool.true_or]
    · rw [if_neg h, if_neg h, ih]

theorem scontains_sremove_self (l : List String) (k : String) :
    scontains (sremove l k) k = false := by
  induction l with
  | nil => rfl
  | cons x xs ih =>
    rw [sremove]
    by_cases h : x = k
    · rw [if_pos h]; exact ih
    · rw [if_neg h, scontains, if_neg h]; exact ih

theorem scontains_sremove_of_ne {x k : String} (l : List String) (h : x ≠ k) :
    scontains (sremove l k) x = scontains l x := by
  induction l with
  | nil => rfl
  | cons y ys ih =>
    rw [sremove]
    by_cases hy : y = k
    · have hyx : ¬(y = x) := fun hh => h (hh ▸ hy)
      rw [if_pos hy, ih, scontains, if_neg hyx]
    · rw [if_neg hy, scontains, scontains, ih]

theorem scontains_of_sremove {l : List String} {k x : String}
    (h : scontains (sremove l k) x = true) : scontains l x = true := by
  by_cases hx : x = k
  · subst hx; rw [scontains_sremove_self] at h; exact absurd h (by simp)
  · rwa [scontains_sremove_of_ne l hx] at h

theorem nodup_sremove {l : List String} (k : String) (h : l.Nodup) :
    (sremove l k).Nodup := by
  induction l with
  | nil => exact h
  | cons x xs ih =>
    rcases List.nodup_cons.mp h with ⟨hx, hxs⟩
    rw [sremove]
    by_cases hk : x = k
    · rw [if_pos hk]; exact ih hxs
    · rw [if_neg hk]
      refine List.nodup_cons.mpr ⟨?_, ih hxs⟩
      intro hmem
      have : scontains (sremove xs k) x = true := scontains_iff_mem.mpr hmem
      exact hx (scontains_iff_mem.mp (scontains_of_sremove this))

theorem nodup_append_singleton {l : List String} {k : String}
    (h : l.Nodup) (hk : scontains l k = false) : (l ++ [k]).Nodup := by
  refine List.Nodup.append h (List.nodup_singleton k) ?_
  intro a ha hb
  rcases List.mem_singleton.mp hb with rfl
  have := scontains_iff_mem.mpr ha
  rw [hk] at this
  exact absurd this (by simp)

theorem scontains_sinsert_of_ne {x k : String} (l : List String) (h : x ≠ k) :
    scontains (sinsert l k) x = scontains l x := by
  rw [sinsert]
  by_cases hc : scontains l k = true
  · rw [if_pos hc]
  · have hkx : ¬(k = x) := fun hh => h hh.symm
    rw [if_neg hc, scontains_append, scontains, if_neg hkx, scontains, Bool.or_false]

theorem isEmpty_false_of_scontains {l : List String} {k : String}
    (h : scontains l k = true) : l.isEmpty = false := by
  cases l with
  | nil => exact absurd h (by simp [scontains])
  | cons x xs => rfl

theorem aget_aset_self {β : Type} (l : List (String × β)) (k : String) (v : β) :
    aget (aset l k v) k = some v := by
  induction l with
  | nil => rw [aset, aget, if_pos rfl]
  | cons p t ih =>
    rcases p with ⟨k1, v1⟩
    rw [aset]
    by_cases h : k1 = k
    · rw [if_pos h, aget, if_pos rfl]
    · rw [if_neg h, aget, if_neg h]; exact ih

theorem aget_aset_of_ne {β : Type} {k k' : String} (l : List (String × β)) (v : β)
    (h : k' ≠ k) : aget (aset l k v) k' = aget l k' := by
  have hkk : ¬(k = k') := fun hh => h hh.symm
  induction l with
  | nil => simp [aset, aget, hkk]
  | cons p t ih =>
    rcases p with ⟨k1, v1⟩
    rw [aset]
    by_cases hp : k1 = k
    · rw [if_pos hp, aget, if_neg hkk, aget, hp, if_neg hkk]
    · rw [if_neg hp, aget, aget]
      by_cases hq : k1 = k'
      · rw [if_pos hq, if_pos hq]
      · rw [if_neg hq, if_neg hq]; exact ih

theorem aget_aremove_self {β : Type} (l : List (String × β)) (k : String) :
    aget (aremove l k) k = none := by
  induction l with
  | nil => rfl
  | cons p t ih =>
    rcases p with ⟨k1, v1⟩
    rw [aremove]
    by_cases h : k1 = k
    · rw [if_pos h]; exact ih
    · rw [if_neg h, aget, if_neg h]; exact ih

theorem aget_aremove_of_ne {β : Type} {k k' : String} (l : List (String × β))
    (h : k' ≠ k) : aget (aremove l k) k' = aget l k' := by
  induction l with
  | nil => rfl
  | cons p t ih =>
    rcases p with ⟨k1, v1⟩
    have hkk : ¬(k = k') := fun hh => h hh.symm
    rw [aremove]
    by_cases hp : k1 = k
    · rw [if_pos hp, aget, hp, if_neg hkk]; exact ih
    · rw [if_neg hp, aget, aget]
      by_cases hq : k1 = k'
      · rw [if_pos hq, if_pos hq]
      · rw [if_neg hq, if_neg hq]; exact ih

theorem tryDequeueWaiting_some {q wi : List String} {m : String} {q' wi' : List String}
    (h : tryDequeueWaiting q wi = (some m, q', wi')) :
    scontains wi m = true ∧ wi' = sremove wi m := by
  induction q with
  | nil => exact absurd (congrArg Prod.fst h) (by simp [tryDequeueWaiting])
  | cons u rest ih =>
    by_cases hc : scontains wi u = true
    · rw [tryDequeueWaiting, if_pos hc] at h
      have h1 : some u = some m := congrArg Prod.fst h
      have h3 : sremove wi u = wi' := congrArg (fun p => p.2.2) h
      injection h1 with h1
      subst h1
      exact ⟨hc, h3.symm⟩
    · rw [tryDequeueWaiting, if_neg hc] at h
      exact ih h

theorem reachVia_runOps (ok : HubState → Op → Bool) (ops : List Op) {s : HubState}
    (h : ReachVia ok s) (hwf : wfVia ok s ops = true) : ReachVia ok (runOps s ops) := by
  induction ops generalizing s with
  | nil => exact h
  | cons op rest ih =>
    rw [wfVia, Bool.and_eq_true] at hwf
    exact ih (ReachVia.step op h hwf.1) hwf.2

/-- C1 counterexample: in a reachable state where session id `zzz` does not
exist, `SendVoiceNote` still broadcasts the voice payload to the routing
group, so the relay does not verify the session for every payload kind and
something is broadcast despite the failed verification. -/
theorem c1_counterexample :
    Reach c1State ∧
    acontains c1State.activeSessions "zzz" = false ∧
    (sendVoiceNote "A" "zzz" "AUD" c1State).events = c1State.events ++
      [Evt.toGroup "zzz" "ReceiveVoiceNote" (Payload.voice "alice" "Unknown" "AUD")] :=
  ⟨reachVia_runOps enabledB [Op.connect "A" "alice"] ReachVia.base (by decide),
   by decide, by decide⟩

/-- C1 amended: only `SendMessage` verifies that the session exists and that
the sender is one of its participants, reporting an invalid-session error to
the caller only, with nothing broadcast; `SendVoiceNote` checks only that the
caller has a profile and broadcasts to the named group regardless of session
validity; `SendImage` performs no verification and always broadcasts the
uploading pre-notification. -/
theorem c1_amended_relay_verification :
    (∀ (s : HubState) (c sid msg uid g : String),
      aget s.connectionProfiles c = some (uid, g) →
      (∀ u1 u2, aget s.activeSessions sid = some (u1, u2) → u1 ≠ uid ∧ u2 ≠ uid) →
      ∃ err, sendMessage c sid msg s =
        { s with events := s.events ++ [Evt.toConn c "Error" (Payload.text err)] }) ∧
    (∀ (s : HubState) (c sid audio uid g : String),
      aget s.connectionProfiles c = some (uid, g) →
      sendVoiceNote c sid audio s =
        { s with events := s.events ++ [Evt.toGroup sid "ReceiveVoiceNote"
            (Payload.voice uid ((tryGetAnyGuestName s uid).getD "Unknown") audio)] }) ∧
    (∀ (s : HubState) (c sid fu b64 : String),
      Evt.toGroup sid "UploadingImage" (Payload.uploading fu) ∈ (sendImage c sid fu b64 s).events) := by
  refine ⟨?_, ?_, ?_⟩
  · intro s c sid msg uid g hp hv
    cases hs : aget s.activeSessions sid with
    | none =>
      exact ⟨"Invalid session.", by simp [sendMessage, hp, hs]⟩
    | some p =>
      rcases p with ⟨u1, u2⟩
      have hne := hv u1 u2 hs
      refine ⟨"Invalid session for user.", ?_⟩
      simp only [sendMessage, hp, hs]
      rw [if_pos hne]
  · intro s c sid audio uid g hp
    simp [sendVoiceNote, hp]
  · intro s c sid fu b64
    show Evt.toGroup sid "UploadingImage" (Payload.uploading fu) ∈ (sendImage c sid fu b64 s).events
    rw [sendImage]
    by_cases h : b64 = ""
    · rw [if_pos h]
      exact List.mem_append_right _ (List.mem_singleton.mpr rfl)
    · rw [if_neg h]
      exact List.mem_append_left _ (List.mem_append_right _ (List.mem_singleton.mpr rfl))

/-- C1 amended, witness: with alice's profiled connection and the missing
session id `zzz`, `SendMessage` yields exactly one error event to the caller. -/
theorem c1_amended_witness :
    aget c1State.connectionProfiles "A" = some ("alice", "") ∧
    (∃ err, sendMessage "A" "zzz" "hi" c1State =
      { c1State with events := c1State.events ++ [Evt.toConn "A" "Error" (Payload.text err)] }) :=
  ⟨rfl, c1_amended_relay_verification.1 c1State "A" "zzz" "hi" "alice" "" rfl
    (fun u1 u2 h =>
      Option.noConfusion (show (none : Option (String × String)) = some (u1, u2) from h))⟩

/-- C2 counterexample: the trace where alice is matched with bob and then
joins again while that session is active ends in a reachable state whose
session table has two entries containing alice, refuting the at-most-one
invariant for unrestricted interleavings. -/
theorem c2_counterexample :
    Reach (runOps init c2Trace) ∧
    (runOps init c2Trace).activeSessions =
      [("bob-alice-2", "bob", "alice"), ("alice-carol-4", "alice", "carol")] ∧
    countHas (runOps init c2Trace).activeSessions "alice" = 2 :=
  ⟨reachVia_runOps enabledB c2Trace ReachVia.base (by decide), by decide, by decide⟩

/-- C3 counterexample: a reachable state whose waiting queue holds the live,
non-self candidate dave behind a stale head, where erin's `JoinChat` creates
no session and re-enqueues erin instead of discarding the stale head and
matching dave, refuting the pop-until-valid description. -/
theorem c3_counterexample :
    Reach (runOps init c3Trace) ∧
    aget (runOps init c3Trace).connectionProfiles "E" = some ("erin", "") ∧
    scontains (runOps init c3Trace).waitingQueue "dave" = true ∧
    scontains (runOps init c3Trace).waitingIndex "dave" = true ∧
    staleUser (runOps init c3Trace) "dave" = false ∧
    ("dave" : String) ≠ "erin" ∧
    (joinChat "E" "t7" "k7" (runOps init c3Trace)).activeSessions =
      (runOps init c3Trace).activeSessions ∧
    scontains (joinChat "E" "t7" "k7" (runOps init c3Trace)).waitingIndex "erin" = true :=
  ⟨reachVia_runOps enabledB c3Trace ReachVia.base (by decide), by decide, by decide,
   by decide, by decide, by decide, by decide, by decide⟩

/-- C5 counterexample: after alice re-joins during her session with bob and
bob skips that session, the reachable state keeps alice's entry in the
waiting queue while alice is also in the idle set, refuting the mutual
exclusion of queue membership and idle membership. -/
theorem c5_counterexample :
    Reach (runOps init c5Trace) ∧
    scontains (runOps init c5Trace).waitingQueue "alice" = true ∧
    scontains (runOps init c5Trace).idleIndex "alice" = true :=
  ⟨reachVia_runOps enabledB c5Trace ReachVia.base (by decide), by decide, by decide⟩

/-- C7 counterexample: after `RemoveUser` strips alice, her still-open
connection late-binds via `JoinSession`, recreating a profile for connection
`A` although the identity-to-connections mapping is empty (so no identity
entry, zero-connection or otherwise, holds `A`), refuting the registry
bijection. -/
theorem c7_counterexample :
    Reach (runOps init c7Trace) ∧
    aget (runOps init c7Trace).connectionProfiles "A" = some ("alice", "") ∧
    (runOps init c7Trace).userConnectionMap = [] :=
  ⟨reachVia_runOps enabledB c7Trace ReachVia.base (by decide), by decide, by decide⟩

/-- C8: evaluated at a reachable two-user state, `AcceptCall` names the
counterpart in each `From` field, but `RejectCall` delivers `From = toUser`
to `toUser` itself (bob's copy says the rejection came from bob, not alice),
contradicting the symmetric counterpart-naming contract that `AcceptCall` and
`EndCall` follow. -/
theorem c8_reject_call_from_field :
    (acceptCall "s1" "alice" "bob" c8State).events = c8State.events ++
      [Evt.toConn "A" "CallAccepted" (Payload.callEvt "bob" "s1"),
       Evt.toConn "B" "CallAccepted" (Payload.callEvt "alice" "s1")] ∧
    (rejectCall "s1" "alice" "bob" c8State).events = c8State.events ++
      [Evt.toConn "A" "CallRejected" (Payload.callEvt "bob" "s1"),
       Evt.toConn "B" "CallRejected" (Payload.callEvt "bob" "s1")] ∧
    aget c8State.userConnectionMap "alice" = some ["A"] ∧
    aget c8State.userConnectionMap "bob" = some ["B"] := by
  refine ⟨by decide, by decide, by decide, by decide⟩

/-- C9: every `SendImage` call broadcasts the `UploadingImage` notice to the
session group whatever the payload, and with an empty base64 payload the call
appends exactly that one group event: no `ReceiveImage`, no error to the
caller, and every state component other than the event log is unchanged. -/
theorem c9_send_image_upload_guard (s : HubState) (c sid fu : String) :
    (∀ b64, Evt.toGroup sid "UploadingImage" (Payload.uploading fu) ∈ (sendImage c sid fu b64 s).events) ∧
    (sendImage c sid fu "" s).events = s.events ++ [Evt.toGroup sid "UploadingImage" (Payload.uploading fu)] ∧
    (sendImage c sid fu "" s).live = s.live ∧
    (sendImage c sid fu "" s).userConnectionMap = s.userConnectionMap ∧
    (sendImage c sid fu "" s).connectionProfiles = s.connectionProfiles ∧
    (sendImage c sid fu "" s).waitingQueue = s.waitingQueue ∧
    (sendImage c sid fu "" s).waitingIndex = s.waitingIndex ∧
    (sendImage c sid fu "" s).idleIndex = s.idleIndex ∧
    (sendImage c sid fu "" s).activeSessions = s.activeSessions ∧
    (sendImage c sid fu "" s).sessionKeys = s.sessionKeys := by
  have hempty : sendImage c sid fu "" s =
      { s with events := s.events ++ [Evt.toGroup sid "UploadingImage" (Payload.uploading fu)] } := rfl
  refine ⟨?_, by rw [hempty], by rw [hempty], by rw [hempty], by rw [hempty], by rw [hempty],
          by rw [hempty], by rw [hempty], by rw [hempty], by rw [hempty]⟩
  intro b64
  rw [sendImage]
  by_cases h : b64 = ""
  · rw [if_pos h]
    exact List.mem_append_right _ (List.mem_singleton.mpr rfl)
  · rw [if_neg h]
    exact List.mem_append_left _ (List.mem_append_right _ (List.mem_singleton.mpr rfl))

/-- C10: `RegisterUser` on a connection that has no profile entry leaves the
whole state untouched: no profile is created and no event (in particular no
error) is sent. -/
theorem c10_register_unregistered_noop (s : HubState) (c name : String)
    (h : aget s.connectionProfiles c = none) : registerUser c name s = s := by
  simp [registerUser, h]

/-- C10 witness: registering a name from a never-attached connection in the
initial state is a no-op. -/
theorem c10_witness :
    aget init.connectionProfiles "ghost" = none ∧ registerUser "ghost" "Nina" init = init :=
  ⟨rfl, c10_register_unregistered_noop init "ghost" "Nina" rfl⟩

theorem isEmpty_append_singleton {α : Type} (l : List α) (x : α) :
    (l ++ [x]).isEmpty = false := by
  cases l <;> rfl

theorem removeFromIdleS_events (u : String) (s : HubState) :
    (removeFromIdleS u s).events = s.events := by
  rw [removeFromIdleS]; split <;> rfl

theorem removeFromIdleS_sessions (u : String) (s : HubState) :
    (removeFromIdleS u s).activeSessions = s.activeSessions := by
  rw [removeFromIdleS]; split <;> rfl

theorem removeFromIdleS_map (u : String) (s : HubState) :
    (removeFromIdleS u s).userConnectionMap = s.userConnectionMap := by
  rw [removeFromIdleS]; split <;> rfl

theorem removeFromIdleS_profiles (u : String) (s : HubState) :
    (removeFromIdleS u s).connectionProfiles = s.connectionProfiles := by
  rw [removeFromIdleS]; split <;> rfl

theorem enqueueWaitingS_events (u : String) (s : HubState) :
    (enqueueWaitingS u s).events = s.events := by
  rw [enqueueWaitingS]; split <;> rfl

theorem enqueueWaitingS_sessions (u : String) (s : HubState) :
    (enqueueWaitingS u s).activeSessions = s.activeSessions := by
  rw [enqueueWaitingS]; split <;> rfl

theorem enqueueWaitingS_profiles (u : String) (s : HubState) :
    (enqueueWaitingS u s).connectionProfiles = s.connectionProfiles := by
  rw [enqueueWaitingS]; split <;> rfl

theorem enqueueWaitingS_map (u : String) (s : HubState) :
    (enqueueWaitingS u s).userConnectionMap = s.userConnectionMap := by
  rw [enqueueWaitingS]; split <;> rfl

theorem enqueueWaitingS_widx_self (u : String) (s : HubState) :
    scontains (enqueueWaitingS u s).waitingIndex u = true := by
  rw [enqueueWaitingS]
  by_cases h : scontains s.waitingIndex u = true
  · rw [if_pos h]; exact h
  · rw [if_neg h, scontains_append, scontains, if_pos rfl, Bool.or_true]

/-- C4: on the match path of `JoinChat` (a waiting candidate that is neither
stale nor the caller), every connection of the caller and every connection of
the matched user receives a `SessionUpdate` carrying the same sessionId and
the same sessionKey, with the me/partner {id, name} pairs swapped between the
two sides. -/
theorem c4_session_update_symmetric (s : HubState) (c ts key uid g m : String)
    (q1 w1 cu cm : List String)
    (hp : aget s.connectionProfiles c = some (uid, g))
    (hd : tryDequeueWaiting s.waitingQueue s.waitingIndex = (some m, q1, w1))
    (hstale : staleUser s m = false)
    (hne : m ≠ uid)
    (hcu : aget s.userConnectionMap uid = some cu)
    (hcm : aget s.userConnectionMap m = some cm) :
    (∀ cid, scontains cu cid = true →
      Evt.toConn cid "SessionUpdate"
        (Payload.sessionUpdate (uid ++ "-" ++ m ++ "-" ++ ts) uid
          ((tryGetAnyGuestName s uid).getD "Unknown") m
          ((tryGetAnyGuestName s m).getD "Unknown") key) ∈ (joinChat c ts key s).events) ∧
    (∀ cid, scontains cm cid = true →
      Evt.toConn cid "SessionUpdate"
        (Payload.sessionUpdate (uid ++ "-" ++ m ++ "-" ++ ts) m
          ((tryGetAnyGuestName s m).getD "Unknown") uid
          ((tryGetAnyGuestName s uid).getD "Unknown") key) ∈ (joinChat c ts key s).events) := by
  have hstaleP : ¬(staleUser s m = true) := by rw [hstale]; simp
  have hev : (joinChat c ts key s).events = s.events
      ++ sendToUser s uid "SessionUpdate"
          (Payload.sessionUpdate (uid ++ "-" ++ m ++ "-" ++ ts) uid
            ((tryGetAnyGuestName s uid).getD "Unknown") m
            ((tryGetAnyGuestName s m).getD "Unknown") key)
      ++ sendToUser s m "SessionUpdate"
          (Payload.sessionUpdate (uid ++ "-" ++ m ++ "-" ++ ts) m
            ((tryGetAnyGuestName s m).getD "Unknown") uid
            ((tryGetAnyGuestName s uid).getD "Unknown") key) := by
    simp only [joinChat, hp, hd]
    rw [if_neg hstaleP, if_neg hne]
    rw [removeFromIdleS_events, removeFromIdleS_events]
  constructor
  · intro cid hcid
    have hie : cu.isEmpty = false := isEmpty_false_of_scontains hcid
    rw [hev]
    refine List.mem_append_left _ (List.mem_append_right _ ?_)
    simp only [sendToUser, hcu]
    rw [if_neg (by rw [hie]; exact Bool.false_ne_true)]
    exact List.mem_map.mpr ⟨cid, scontains_iff_mem.mp hcid, rfl⟩
  · intro cid hcid
    have hie : cm.isEmpty = false := isEmpty_false_of_scontains hcid
    rw [hev]
    refine List.mem_append_right _ ?_
    simp only [sendToUser, hcm]
    rw [if_neg (by rw [hie]; exact Bool.false_ne_true)]
    exact List.mem_map.mpr ⟨cid, scontains_iff_mem.mp hcid, rfl⟩

/-- C4 witness: bob's join matches waiting alice; the concrete state shows
bob's connection `B` and alice's connection `A` each receiving the
`SessionUpdate` with identical sessionId `bob-alice-2` and key `KEY` and
swapped me/partner fields. -/
theorem c4_witness :
    Evt.toConn "B" "SessionUpdate"
      (Payload.sessionUpdate "bob-alice-2" "bob" "Bob" "alice" "Alice" "KEY")
      ∈ (joinChat "B" "2" "KEY" c4State).events ∧
    Evt.toConn "A" "SessionUpdate"
      (Payload.sessionUpdate "bob-alice-2" "alice" "Alice" "bob" "Bob" "KEY")
      ∈ (joinChat "B" "2" "KEY" c4State).events := by
  have h := c4_session_update_symmetric c4State "B" "2" "KEY" "bob" "Bob" "alice"
    [] [] ["B"] ["A"] rfl rfl rfl (by decide) rfl rfl
  exact ⟨h.1 "B" rfl, h.2 "A" rfl⟩

theorem disconnectDetach_fields (c : String) (s : HubState) :
    (disconnectDetach c s).waitingQueue = s.waitingQueue ∧
    (disconnectDetach c s).waitingIndex = s.waitingIndex ∧
    (disconnectDetach c s).idleIndex = s.idleIndex ∧
    (disconnectDetach c s).activeSessions = s.activeSessions ∧
    (disconnectDetach c s).sessionKeys = s.sessionKeys ∧
    ∃ tl, (disconnectDetach c s).events = s.events ++ tl ∧
      tl.all (fun e => !(isPartnerLeftEvt e)) = true := by
  simp only [disconnectDetach]
  split
  · refine ⟨?_, ?_, ?_, ?_, ?_, ⟨[countEvt s.connectionProfiles], ?_, ?_⟩⟩ <;> first | rfl | trivial
  · split
    · split
      · refine ⟨?_, ?_, ?_, ?_, ?_, ⟨[], (List.append_nil _).symm, ?_⟩⟩ <;> first | rfl | trivial
      · refine ⟨?_, ?_, ?_, ?_, ?_,
          ⟨[countEvt (aremove s.connectionProfiles c)], ?_, ?_⟩⟩ <;> first | rfl | trivial
    · refine ⟨?_, ?_, ?_, ?_, ?_,
        ⟨[countEvt (aremove s.connectionProfiles c)], ?_, ?_⟩⟩ <;> first | rfl | trivial

theorem onConnected_fields (c uid : String) (s : HubState) (h : ¬(uid = "")) :
    (onConnected c uid s).waitingQueue = s.waitingQueue ∧
    (onConnected c uid s).waitingIndex = s.waitingIndex ∧
    (onConnected c uid s).idleIndex = s.idleIndex ∧
    (onConnected c uid s).activeSessions = s.activeSessions ∧
    (onConnected c uid s).sessionKeys = s.sessionKeys ∧
    (∃ conns, aget (onConnected c uid s).userConnectionMap uid = some conns ∧
      conns.isEmpty = false) ∧
    ∃ tl, (onConnected c uid s).events = s.events ++ tl ∧
      tl.all (fun e => !(isPartnerLeftEvt e)) = true := by
  simp only [onConnected, if_neg h]
  split
  · split
    · refine ⟨?_, ?_, ?_, ?_, ?_,
        ⟨_, aget_aset_self _ _ _, isEmpty_false_of_scontains (by assumption)⟩,
        ⟨[Evt.toConn c "ReceiveConnectionId" (Payload.cid c),
          countEvt (aset s.connectionProfiles c (uid, ""))], ?_, ?_⟩⟩ <;>
        first | rfl | trivial
    · refine ⟨?_, ?_, ?_, ?_, ?_,
        ⟨_, aget_aset_self _ _ _, isEmpty_append_singleton _ c⟩,
        ⟨[Evt.toConn c "ReceiveConnectionId" (Payload.cid c),
          countEvt (aset s.connectionProfiles c (uid, ""))], ?_, ?_⟩⟩ <;>
        first | rfl | trivial
  · refine ⟨?_, ?_, ?_, ?_, ?_, ⟨[c], aget_aset_self _ _ _, ?_⟩,
        ⟨[Evt.toConn c "ReceiveConnectionId" (Payload.cid c),
          countEvt (aset s.connectionProfiles c (uid, ""))], ?_, ?_⟩⟩ <;>
      first | rfl | trivial

theorem graceExpire_connected (uid dn : String) (s : HubState) (conns : List String)
    (hm : aget s.userConnectionMap uid = some conns) (hne : conns.isEmpty = false) :
    graceExpire uid dn s = { s with events := s.events ++ [countEvt s.connectionProfiles] } := by
  simp [graceExpire, hm, hne]

/-- C6: if a connection detaches and another connection attaches under the
same (non-empty) identity before the grace re-check runs, the re-check is a
no-op: the session table, waiting queue, both indices and the session keys
are exactly as before the detach, and none of the events emitted by the three
steps is a partner-left or partner-disconnected notification. -/
theorem c6_grace_reattach (s : HubState) (c1 c2 uid dname : String) (h : uid ≠ "") :
    (graceExpire uid dname (onConnected c2 uid (disconnectDetach c1 s))).activeSessions
      = s.activeSessions ∧
    (graceExpire uid dname (onConnected c2 uid (disconnectDetach c1 s))).waitingQueue
      = s.waitingQueue ∧
    (graceExpire uid dname (onConnected c2 uid (disconnectDetach c1 s))).waitingIndex
      = s.waitingIndex ∧
    (graceExpire uid dname (onConnected c2 uid (disconnectDetach c1 s))).idleIndex
      = s.idleIndex ∧
    (graceExpire uid dname (onConnected c2 uid (disconnectDetach c1 s))).sessionKeys
      = s.sessionKeys ∧
    ∃ tl, (graceExpire uid dname (onConnected c2 uid (disconnectDetach c1 s))).events
        = s.events ++ tl ∧
      tl.all (fun e => !(isPartnerLeftEvt e)) = true := by
  obtain ⟨d1, d2, d3, d4, d5, td, hd, ha⟩ := disconnectDetach_fields c1 s
  obtain ⟨o1, o2, o3, o4, o5, ⟨conns, hc, hcne⟩, te, ho, hoa⟩ :=
    onConnected_fields c2 uid (disconnectDetach c1 s) h
  have hg := graceExpire_connected uid dname (onConnected c2 uid (disconnectDetach c1 s))
    conns hc hcne
  rw [hg]
  refine ⟨by rw [o4, d4], by rw [o1, d1], by rw [o2, d2], by rw [o3, d3], by rw [o5, d5], ?_⟩
  refine ⟨td ++ te ++ [countEvt (onConnected c2 uid (disconnectDetach c1 s)).connectionProfiles], ?_, ?_⟩
  · show (onConnected c2 uid (disconnectDetach c1 s)).events ++ [_] = _
    rw [ho, hd, List.append_assoc, List.append_assoc, List.append_assoc]
  · rw [List.all_append, List.all_append, ha, hoa]
    rfl

/-- C6 witness: with alice and bob in an established session, alice's
connection `A` detaching, a fresh connection `A2` reattaching as alice and
the grace re-check firing leaves the session table and pools unchanged and
emits no partner-left notification. -/
theorem c6_witness :
    ("alice" : String) ≠ "" ∧
    (graceExpire "alice" "alice" (onConnected "A2" "alice" (disconnectDetach "A" c6State))).activeSessions
      = c6State.activeSessions ∧
    ∃ tl, (graceExpire "alice" "alice" (onConnected "A2" "alice" (disconnectDetach "A" c6State))).events
        = c6State.events ++ tl ∧
      tl.all (fun e => !(isPartnerLeftEvt e)) = true := by
  have h := c6_grace_reattach c6State "A" "A2" "alice" "alice" (by decide)
  exact ⟨by decide, h.1, h.2.2.2.2.2⟩

theorem scontains_singleton {u v : String} (h : scontains [u] v = true) : u = v := by
  by_cases hx : u = v
  · exact hx
  · rw [scontains, if_neg hx] at h
    exact absurd h (by simp [scontains])

theorem tryDequeueWaiting_none {q wi : List String} {q' wi' : List String}
    (h : tryDequeueWaiting q wi = (none, q', wi')) : wi' = wi := by
  induction q with
  | nil =>
    have h3 : wi = wi' := congrArg (fun p => p.2.2) h
    exact h3.symm
  | cons u rest ih =>
    by_cases hc : scontains wi u = true
    · rw [tryDequeueWaiting, if_pos hc] at h
      exact absurd (congrArg Prod.fst h) (by simp)
    · rw [tryDequeueWaiting, if_neg hc] at h
      exact ih h

theorem waitInvPools {s s' : HubState} (h1 : s'.waitingIndex = s.waitingIndex)
    (h2 : s'.idleIndex = s.idleIndex) (h : WaitInv s) : WaitInv s' := by
  rw [WaitInv, h1, h2]; exact h

theorem waitInv_widx_sremove {s s' : HubState} (u : String) (h : WaitInv s)
    (h1 : s'.waitingIndex = sremove s.waitingIndex u) (h2 : s'.idleIndex = s.idleIndex) :
    WaitInv s' := by
  obtain ⟨hnd, hdisj⟩ := h
  rw [WaitInv, h1, h2]
  exact ⟨nodup_sremove u hnd, fun v hv => hdisj v (scontains_of_sremove hv)⟩

theorem waitInv_sremove_both {s s' : HubState} (u : String) (h : WaitInv s)
    (h1 : s'.waitingIndex = sremove s.waitingIndex u)
    (h2 : s'.idleIndex = sremove s.idleIndex u) : WaitInv s' := by
  obtain ⟨hnd, hdisj⟩ := h
  rw [WaitInv, h1, h2]
  refine ⟨nodup_sremove u hnd, fun v hv => ?_⟩
  by_cases hvu : v = u
  · subst hvu; exact scontains_sremove_self _ _
  · rw [scontains_sremove_of_ne _ hvu]
    exact hdisj v (scontains_of_sremove hv)

theorem waitInv_enqueue (u : String) (s : HubState) (h : WaitInv s) :
    WaitInv (enqueueWaitingS u s) := by
  obtain ⟨hnd, hdisj⟩ := h
  rw [enqueueWaitingS]
  by_cases hc : scontains s.waitingIndex u = true
  · rw [if_pos hc]
    refine ⟨hnd, fun v hv => ?_⟩
    by_cases hvu : v = u
    · subst hvu; exact scontains_sremove_self _ _
    · rw [scontains_sremove_of_ne _ hvu]; exact hdisj v hv
  · have hcf : scontains s.waitingIndex u = false := by
      cases hval : scontains s.waitingIndex u with
      | false => rfl
      | true => exact absurd hval hc
    rw [if_neg hc]
    refine ⟨nodup_append_singleton hnd hcf, fun v hv => ?_⟩
    by_cases hvu : v = u
    · subst hvu; exact scontains_sremove_self _ _
    · rw [scontains_sremove_of_ne _ hvu]
      rw [scontains_append, Bool.or_eq_true] at hv
      rcases hv with hv | hv
      · exact hdisj v hv
      · exact absurd (scontains_singleton hv).symm hvu

theorem waitInv_moveToIdle (u : String) (s : HubState) (h : WaitInv s) :
    WaitInv (moveToIdleS u s) := by
  obtain ⟨hnd, hdisj⟩ := h
  refine ⟨nodup_sremove u hnd, fun v hv => ?_⟩
  have hvu : v ≠ u := by
    intro he
    subst he
    rw [moveToIdleS] at hv
    exact absurd (scontains_sremove_self s.waitingIndex v ▸ hv) (by simp)
  rw [moveToIdleS] at hv
  rw [moveToIdleS, scontains_sinsert_of_ne _ hvu]
  exact hdisj v (scontains_of_sremove hv)

theorem waitInv_removeFromIdle (u : String) (s : HubState) (h : WaitInv s) :
    WaitInv (removeFromIdleS u s) := by
  rw [removeFromIdleS]
  by_cases hu : u = ""
  · rw [if_pos hu]; exact h
  · rw [if_neg hu]
    exact waitInv_sremove_both u h rfl rfl

theorem waitInv_joinChat (c ts key : String) (s : HubState) (h : WaitInv s) :
    WaitInv (joinChat c ts key s) := by
  cases hp : aget s.connectionProfiles c with
  | none =>
    simp only [joinChat, hp]
    exact waitInvPools rfl rfl h
  | some pr =>
    rcases pr with ⟨uid, g⟩
    rcases hdq : tryDequeueWaiting s.waitingQueue s.waitingIndex with ⟨mo, q1, w1⟩
    cases mo with
    | none =>
      have hw1 : w1 = s.waitingIndex := tryDequeueWaiting_none hdq
      simp only [joinChat, hp, hdq]
      exact waitInvPools rfl rfl (waitInv_enqueue uid _ (waitInvPools hw1 rfl h))
    | some m =>
      have hw1 : w1 = sremove s.waitingIndex m := (tryDequeueWaiting_some hdq).2
      by_cases hst : staleUser s m = true
      · simp only [joinChat, hp, hdq]
        rw [if_pos hst]
        exact waitInvPools rfl rfl
          (waitInv_enqueue uid _ (waitInv_widx_sremove m h hw1 rfl))
      · by_cases hm : m = uid
        · simp only [joinChat, hp, hdq]
          rw [if_neg hst, if_pos hm]
          exact waitInvPools rfl rfl
            (waitInv_enqueue uid _ (waitInv_widx_sremove m h hw1 rfl))
        · simp only [joinChat, hp, hdq]
          rw [if_neg hst, if_neg hm]
          exact waitInvPools rfl rfl
            (waitInv_removeFromIdle m _
              (waitInv_removeFromIdle uid _ (waitInv_widx_sremove m h hw1 rfl)))

theorem waitInv_nextChat (c ts key : String) (s : HubState) (h : WaitInv s) :
    WaitInv (nextChat c ts key s) := by
  cases hp : aget s.connectionProfiles c with
  | none => simp only [nextChat, hp]; exact h
  | some pr =>
    rcases pr with ⟨uid, g⟩
    simp only [nextChat, hp]
    refine waitInv_joinChat c ts key _ (waitInv_enqueue uid _ ?_)
    refine waitInv_widx_sremove uid ?_ rfl rfl
    exact waitInv_removeFromIdle uid _ (waitInvPools rfl rfl h)

theorem waitInv_removeUserSessions (uid : String) (ls : List (String × String × String))
    (s : HubState) (h : WaitInv s) : WaitInv (removeUserSessions uid ls s) := by
  induction ls generalizing s with
  | nil => exact h
  | cons p rest ih =>
    rcases p with ⟨sid, u1, u2⟩
    rw [removeUserSessions]
    split
    · exact ih _ (waitInvPools rfl rfl
        (waitInv_moveToIdle _ _ (waitInvPools rfl rfl h)))
    · exact ih _ h

theorem waitInv_step (s : HubState) (op : Op) (h : WaitInv s) : WaitInv (step s op) := by
  cases op with
  | connect c uid =>
    simp only [step, onConnected]
    split
    · exact waitInvPools rfl rfl h
    · exact waitInvPools rfl rfl h
  | register c name =>
    simp only [step, registerUser]
    split
    · exact waitInvPools rfl rfl h
    · exact h
  | join c ts key => exact waitInv_joinChat c ts key s h
  | skip c sid =>
    simp only [step, skipChat]
    split
    · exact h
    · split
      · exact h
      · exact waitInv_moveToIdle _ _ (waitInv_moveToIdle _ _ (waitInvPools rfl rfl h))
  | next c ts key => exact waitInv_nextChat c ts key s h
  | sendMsg c sid msg =>
    simp only [step, sendMessage]
    split
    · exact waitInvPools rfl rfl h
    · split
      · exact waitInvPools rfl rfl h
      · split
        · exact waitInvPools rfl rfl h
        · exact waitInvPools rfl rfl h
  | sendVoice c sid audio =>
    simp only [step, sendVoiceNote]
    split
    · exact waitInvPools rfl rfl h
    · exact waitInvPools rfl rfl h
  | sendImg c sid fu b64 =>
    simp only [step, sendImage]
    split
    · exact waitInvPools rfl rfl h
    · exact waitInvPools rfl rfl h
  | detach c =>
    simp only [step, disconnectDetach]
    split
    · exact waitInvPools rfl rfl h
    · split
      · split
        · exact waitInvPools rfl rfl h
        · exact waitInvPools rfl rfl h
      · exact waitInvPools rfl rfl h
  | grace uid dname =>
    simp only [step, graceExpire]
    split
    · exact waitInvPools rfl rfl h
    · split
      · exact waitInvPools rfl rfl (waitInv_sremove_both uid h rfl rfl)
      · exact waitInvPools rfl rfl
          (waitInv_moveToIdle _ _ (waitInvPools rfl rfl (waitInv_sremove_both uid h rfl rfl)))
  | removeU uid =>
    simp only [step, removeUser]
    split
    · exact h
    · exact waitInv_removeUserSessions uid _ _ (waitInv_sremove_both uid h rfl rfl)
  | joinSess c sid uid =>
    simp only [step, joinSession]
    split
    · exact h
    · exact waitInvPools rfl rfl h
  | acceptC c sid fu tu => exact waitInvPools rfl rfl h
  | rejectC c sid fu tu => exact waitInvPools rfl rfl h

theorem waitInv_reach {s : HubState} (h : Reach s) : WaitInv s := by
  induction h with
  | base =>
    refine ⟨List.nodup_nil, fun u hv => ?_⟩
    exact absurd hv (by simp [init, scontains])
  | step op hprev hok ih => exact waitInv_step _ op ih

/-- C5 amended: in every reachable state the waiting presence index
(`WaitingIndex`) holds each identity at most once, and no identity is
simultaneously in the presence index and the idle set (the physical queue
list may retain stale entries that the dequeue loop later discards). -/
theorem c5_amended_queue_invariants (s : HubState) (h : Reach s) :
    s.waitingIndex.Nodup ∧
    ∀ u, scontains s.waitingIndex u = true → scontains s.idleIndex u = false :=
  waitInv_reach h

/-- C5 amended, witness: the invariant evaluated on the concrete reachable
state of the counterexample trace, whose waiting index is the singleton of
the orphaned queue owner's replacement. -/
theorem c5_amended_witness :
    (runOps init c5Trace).waitingIndex.Nodup ∧
    ∀ u, scontains (runOps init c5Trace).waitingIndex u = true →
      scontains (runOps init c5Trace).idleIndex u = false :=
  c5_amended_queue_invariants _ (reachVia_runOps enabledB c5Trace ReachVia.base (by decide))

theorem scontains_false_sremove {l : List String} {k x : String}
    (h : scontains l x = false) : scontains (sremove l k) x = false := by
  cases hv : scontains (sremove l k) x with
  | false => rfl
  | true =>
    have := scontains_of_sremove hv
    rw [h] at this
    exact absurd this (by simp)

theorem removeFromIdleS_widx_absent {u : String} (m : String) (s : HubState)
    (h : scontains s.waitingIndex u = false) :
    scontains (removeFromIdleS m s).waitingIndex u = false := by
  rw [removeFromIdleS]
  split
  · exact h
  · exact scontains_false_sremove h

theorem removeFromIdleS_queue_absent {u : String} (m : String) (s : HubState)
    (h : scontains s.waitingQueue u = false) :
    scontains (removeFromIdleS m s).waitingQueue u = false := by
  rw [removeFromIdleS]
  split
  · exact h
  · exact scontains_false_sremove h

theorem removeFromIdleS_widx_self {u : String} (s : HubState) (hu : ¬(u = "")) :
    scontains (removeFromIdleS u s).waitingIndex u = false := by
  rw [removeFromIdleS, if_neg hu]
  exact scontains_sremove_self _ _

theorem removeFromIdleS_queue_self {u : String} (s : HubState) (hu : ¬(u = "")) :
    scontains (removeFromIdleS u s).waitingQueue u = false := by
  rw [removeFromIdleS, if_neg hu]
  exact scontains_sremove_self _ _

/-- C3 amended: `JoinChat` pops heads while they are absent from the waiting
presence index; at most one present head is examined per call.  When the
queue is exhausted, or the popped head is stale, or it equals the caller's
identity, no session is created and the caller is enqueued and told to keep
waiting; only a present head that is neither stale nor self is matched, and
then the caller (with a non-empty identity) is in neither the queue nor the
index. -/
theorem c3_amended_match_once (s : HubState) (c ts key uid g : String)
    (hp : aget s.connectionProfiles c = some (uid, g)) :
    (∀ q1 w1, tryDequeueWaiting s.waitingQueue s.waitingIndex = (none, q1, w1) →
      (joinChat c ts key s).activeSessions = s.activeSessions ∧
      scontains (joinChat c ts key s).waitingIndex uid = true ∧
      (joinChat c ts key s).events = s.events ++
        [Evt.toConn c "Waiting" (Payload.text "Waiting for a match...")]) ∧
    (∀ m q1 w1, tryDequeueWaiting s.waitingQueue s.waitingIndex = (some m, q1, w1) →
      staleUser s m = true →
      (joinChat c ts key s).activeSessions = s.activeSessions ∧
      scontains (joinChat c ts key s).waitingIndex uid = true ∧
      (joinChat c ts key s).events = s.events ++
        [Evt.toConn c "Waiting" (Payload.text "Waiting for a match...")]) ∧
    (∀ m q1 w1, tryDequeueWaiting s.waitingQueue s.waitingIndex = (some m, q1, w1) →
      staleUser s m = false → m = uid →
      (joinChat c ts key s).activeSessions = s.activeSessions ∧
      scontains (joinChat c ts key s).waitingIndex uid = true ∧
      (joinChat c ts key s).events = s.events ++
        [Evt.toConn c "Waiting" (Payload.text "Waiting for a match...")]) ∧
    (∀ m q1 w1, tryDequeueWaiting s.waitingQueue s.waitingIndex = (some m, q1, w1) →
      staleUser s m = false → m ≠ uid →
      (joinChat c ts key s).activeSessions =
        aset s.activeSessions (uid ++ "-" ++ m ++ "-" ++ ts) (uid, m) ∧
      (uid ≠ "" →
        scontains (joinChat c ts key s).waitingIndex uid = false ∧
        scontains (joinChat c ts key s).waitingQueue uid = false)) := by
  refine ⟨?_, ?_, ?_, ?_⟩
  · intro q1 w1 hdq
    simp only [joinChat, hp, hdq]
    refine ⟨?_, enqueueWaitingS_widx_self uid _, ?_⟩
    · show (enqueueWaitingS uid _).activeSessions = s.activeSessions
      rw [enqueueWaitingS_sessions]
    · show (enqueueWaitingS uid _).events ++ _ = _
      rw [enqueueWaitingS_events]
  · intro m q1 w1 hdq hst
    simp only [joinChat, hp, hdq]
    rw [if_pos hst]
    refine ⟨?_, enqueueWaitingS_widx_self uid _, ?_⟩
    · show (enqueueWaitingS uid _).activeSessions = s.activeSessions
      rw [enqueueWaitingS_sessions]
    · show (enqueueWaitingS uid _).events ++ _ = _
      rw [enqueueWaitingS_events]
  · intro m q1 w1 hdq hst hm
    have hstP : ¬(staleUser s m = true) := by rw [hst]; simp
    simp only [joinChat, hp, hdq]
    rw [if_neg hstP, if_pos hm]
    refine ⟨?_, enqueueWaitingS_widx_self uid _, ?_⟩
    · show (enqueueWaitingS uid _).activeSessions = s.activeSessions
      rw [enqueueWaitingS_sessions]
    · show (enqueueWaitingS uid _).events ++ _ = _
      rw [enqueueWaitingS_events]
  · intro m q1 w1 hdq hst hm
    have hstP : ¬(staleUser s m = true) := by rw [hst]; simp
    simp only [joinChat, hp, hdq]
    rw [if_neg hstP, if_neg hm]
    constructor
    · show aset (removeFromIdleS m (removeFromIdleS uid _)).activeSessions _ _ = _
      rw [removeFromIdleS_sessions, removeFromIdleS_sessions]
    · intro hu
      constructor
      · exact removeFromIdleS_widx_absent m _ (removeFromIdleS_widx_self _ hu)
      · exact removeFromIdleS_queue_absent m _ (removeFromIdleS_queue_self _ hu)

/-- C3 amended, witness: in the concrete state where alice waits and bob
joins, the single examined head alice is matched, the session is registered
and bob is in neither the queue nor the index afterwards. -/
theorem c3_amended_witness :
    tryDequeueWaiting c4State.waitingQueue c4State.waitingIndex = (some "alice", [], []) ∧
    (joinChat "B" "2" "KEY" c4State).activeSessions =
      aset c4State.activeSessions "bob-alice-2" ("bob", "alice") ∧
    scontains (joinChat "B" "2" "KEY" c4State).waitingIndex "bob" = false := by
  have h := (c3_amended_match_once c4State "B" "2" "KEY" "bob" "Bob" rfl).2.2.2
    "alice" [] [] rfl rfl (by decide)
  exact ⟨rfl, h.1, (h.2 (by decide)).1⟩

theorem countHas_nil (u : String) : countHas [] u = 0 := rfl

theorem countHas_cons (p : String × String × String) (t : List (String × String × String))
    (u : String) :
    countHas (p :: t) u = (if pairHas p.2 u = true then 1 else 0) + countHas t u := by
  by_cases h : pairHas p.2 u = true
  · rw [countHas, List.filter_cons, if_pos h, if_pos h, List.length_cons, countHas]
    omega
  · rw [countHas, List.filter_cons, if_neg h, if_neg h, countHas]
    omega

theorem countHas_aremove_le (l : List (String × String × String)) (sid u : String) :
    countHas (aremove l sid) u ≤ countHas l u := by
  induction l with
  | nil => exact Nat.le_refl 0
  | cons p t ih =>
    rcases p with ⟨k1, ab⟩
    rw [aremove]
    by_cases hk : k1 = sid
    · rw [if_pos hk, countHas_cons]
      exact le_trans ih (Nat.le_add_left _ _)
    · rw [if_neg hk, countHas_cons, countHas_cons]
      exact Nat.add_le_add_left ih _

theorem countHas_filter_le (l : List (String × String × String))
    (f : String × String × String → Bool) (u : String) :
    countHas (l.filter f) u ≤ countHas l u := by
  induction l with
  | nil => exact Nat.le_refl 0
  | cons p t ih =>
    rw [List.filter_cons]
    by_cases hf : f p = true
    · rw [if_pos hf, countHas_cons, countHas_cons]
      exact Nat.add_le_add_left ih _
    · rw [if_neg hf, countHas_cons]
      exact le_trans ih (Nat.le_add_left _ _)

theorem countHas_filter_not_self (l : List (String × String × String)) (uid : String) :
    countHas (l.filter (fun p => !(pairHas p.2 uid))) uid = 0 := by
  induction l with
  | nil => rfl
  | cons p t ih =>
    rw [List.filter_cons]
    by_cases hf : pairHas p.2 uid = true
    · rw [if_neg (by rw [hf]; simp)]
      exact ih
    · have hff : pairHas p.2 uid = false := by
        cases hv : pairHas p.2 uid with
        | false => rfl
        | true => exact absurd hv hf
      rw [if_pos (by rw [hff]; rfl), countHas_cons, hff]
      simp [ih]

theorem pairHas_pair_iff (a b u : String) : pairHas (a, b) u = true ↔ a = u ∨ b = u := by
  rw [pairHas]
  by_cases h1 : a = u
  · rw [if_pos h1]; simp [h1]
  · rw [if_neg h1]
    by_cases h2 : b = u
    · rw [if_pos h2]; simp [h2]
    · rw [if_neg h2]; simp [h1, h2]

theorem pairHas_pair_false {a b u : String} (h1 : ¬(a = u)) (h2 : ¬(b = u)) :
    pairHas (a, b) u = false := by
  rw [pairHas, if_neg h1, if_neg h2]

theorem countHas_aset_le_one (l : List (String × String × String)) (k : String)
    (v : String × String) (u : String) :
    countHas (aset l k v) u ≤ countHas l u + 1 := by
  induction l with
  | nil =>
    rw [aset, countHas_cons, countHas_nil]
    split <;> omega
  | cons p t ih =>
    rcases p with ⟨k1, ab⟩
    rw [aset]
    by_cases hk : k1 = k
    · rw [if_pos hk, countHas_cons, countHas_cons]
      split <;> split <;> omega
    · rw [if_neg hk, countHas_cons, countHas_cons]
      split <;> omega

theorem countHas_aset_of_false (l : List (String × String × String)) (k : String)
    (v : String × String) (u : String) (hv : pairHas v u = false) :
    countHas (aset l k v) u ≤ countHas l u := by
  induction l with
  | nil =>
    rw [aset, countHas_cons, countHas_nil, hv]
    simp
  | cons p t ih =>
    rcases p with ⟨k1, ab⟩
    rw [aset]
    by_cases hk : k1 = k
    · rw [if_pos hk, countHas_cons, countHas_cons, hv]
      have hz : (if (false : Bool) = true then 1 else 0) = 0 := rfl
      rw [hz]
      split <;> omega
    · rw [if_neg hk, countHas_cons, countHas_cons]
      split <;> omega

theorem countHas_zero_aset {l : List (String × String × String)} {k : String}
    {v : String × String} {u : String} (h0 : countHas l u = 0) (hv : pairHas v u = false) :
    countHas (aset l k v) u = 0 :=
  Nat.le_zero.mp (h0 ▸ countHas_aset_of_false l k v u hv)

theorem sessInv_shrink {s s' : HubState}
    (hle : ∀ u, countHas s'.activeSessions u ≤ countHas s.activeSessions u)
    (hw : ∀ u, scontains s'.waitingIndex u = true → scontains s.waitingIndex u = true)
    (hmn : aget s'.userConnectionMap "" = none)
    (h : SessInv s) : SessInv s' := by
  refine ⟨fun u => le_trans (hle u) (h.1 u), fun u hu => ?_, hmn⟩
  rcases h.2.1 u (hw u hu) with h0 | he
  · exact Or.inl (Nat.le_zero.mp (le_trans (hle u) (Nat.le_of_eq h0)))
  · exact Or.inr he

theorem sessInv_enqueue (uid : String) (s : HubState) (h : SessInv s)
    (hz : countHas s.activeSessions uid = 0) : SessInv (enqueueWaitingS uid s) := by
  obtain ⟨h1, h2, h3⟩ := h
  rw [enqueueWaitingS]
  by_cases hc : scontains s.waitingIndex uid = true
  · rw [if_pos hc]
    exact ⟨h1, h2, h3⟩
  · rw [if_neg hc]
    refine ⟨h1, fun v hv => ?_, h3⟩
    rw [scontains_append, Bool.or_eq_true] at hv
    rcases hv with hv | hv
    · exact h2 v hv
    · exact Or.inl ((scontains_singleton hv) ▸ hz)

theorem sessInv_removeFromIdle (u : String) (s : HubState) (h : SessInv s) :
    SessInv (removeFromIdleS u s) := by
  rw [removeFromIdleS]
  split
  · exact h
  · refine sessInv_shrink ?_ ?_ ?_ h
    · exact fun v => Nat.le_refl _
    · exact fun v hv => scontains_of_sremove
        (show scontains (sremove s.waitingIndex u) v = true from hv)
    · exact h.2.2

theorem sessInv_removeUserSessions (uid : String) (ls : List (String × String × String))
    (s : HubState) (h : SessInv s) : SessInv (removeUserSessions uid ls s) := by
  induction ls generalizing s with
  | nil => exact h
  | cons p rest ih =>
    rcases p with ⟨sid, u1, u2⟩
    rw [removeUserSessions]
    split
    · apply ih
      refine sessInv_shrink ?_ ?_ ?_ h
      · exact fun v => countHas_aremove_le _ _ _
      · exact fun v hv => scontains_of_sremove
          (show scontains (sremove s.waitingIndex _) v = true from hv)
      · exact h.2.2
    · exact ih _ h

theorem removeFromIdleS_widx_subset {v : String} (u : String) (s : HubState)
    (h : scontains (removeFromIdleS u s).waitingIndex v = true) :
    scontains s.waitingIndex v = true := by
  rw [removeFromIdleS] at h
  split at h
  · exact h
  · have h' : scontains (sremove s.waitingIndex u) v = true := h
    exact scontains_of_sremove h'

theorem staleUser_empty (s : HubState) (h : aget s.userConnectionMap "" = none) :
    staleUser s "" = true := by
  rw [staleUser, h]

theorem sessInv_joinChat (c ts key : String) (s : HubState) (h : SessInv s)
    (hfree : ∀ uid g, aget s.connectionProfiles c = some (uid, g) →
      countHas s.activeSessions uid = 0) :
    SessInv (joinChat c ts key s) := by
  cases hp : aget s.connectionProfiles c with
  | none =>
    simp only [joinChat, hp]
    refine sessInv_shrink ?_ ?_ ?_ h
    · exact fun u => Nat.le_refl _
    · exact fun u hu => hu
    · exact h.2.2
  | some pr =>
    rcases pr with ⟨uid, g⟩
    have huid : countHas s.activeSessions uid = 0 := hfree uid g hp
    rcases hdq : tryDequeueWaiting s.waitingQueue s.waitingIndex with ⟨mo, q1, w1⟩
    cases mo with
    | none =>
      have hw1 : w1 = s.waitingIndex := tryDequeueWaiting_none hdq
      have hSMid : SessInv { s with waitingQueue := q1, waitingIndex := w1 } := by
        refine sessInv_shrink ?_ ?_ ?_ h
        · exact fun u => Nat.le_refl _
        · exact fun u hu => hw1 ▸ (show scontains w1 u = true from hu)
        · exact h.2.2
      have hEnq := sessInv_enqueue uid _ hSMid huid
      simp only [joinChat, hp, hdq]
      refine sessInv_shrink ?_ ?_ ?_ hEnq
      · exact fun u => Nat.le_refl _
      · exact fun u hu => hu
      · exact hEnq.2.2
    | some m =>
      have hmw : scontains s.waitingIndex m = true := (tryDequeueWaiting_some hdq).1
      have hw1 : w1 = sremove s.waitingIndex m := (tryDequeueWaiting_some hdq).2
      have hSMid : SessInv { s with waitingQueue := q1, waitingIndex := w1 } := by
        refine sessInv_shrink ?_ ?_ ?_ h
        · exact fun u => Nat.le_refl _
        · exact fun u hu => scontains_of_sremove (hw1 ▸ (show scontains w1 u = true from hu))
        · exact h.2.2
      by_cases hst : staleUser s m = true
      · have hEnq := sessInv_enqueue uid _ hSMid huid
        simp only [joinChat, hp, hdq]
        rw [if_pos hst]
        refine sessInv_shrink ?_ ?_ ?_ hEnq
        · exact fun u => Nat.le_refl _
        · exact fun u hu => hu
        · exact hEnq.2.2
      · by_cases hmu : m = uid
        · have hEnq := sessInv_enqueue uid _ hSMid huid
          simp only [joinChat, hp, hdq]
          rw [if_neg hst, if_pos hmu]
          refine sessInv_shrink ?_ ?_ ?_ hEnq
          · exact fun u => Nat.le_refl _
          · exact fun u hu => hu
          · exact hEnq.2.2
        · have hstf : staleUser s m = false := by
            cases hval : staleUser s m with
            | false => rfl
            | true => exact absurd hval hst
          have hmne : ¬(m = "") := by
            intro he
            rw [he] at hstf
            rw [staleUser_empty s h.2.2] at hstf
            exact Bool.noConfusion hstf
          have hmz : countHas s.activeSessions m = 0 := by
            rcases h.2.1 m hmw with h0 | he
            · exact h0
            · exact absurd he hmne
          simp only [joinChat, hp, hdq]
          rw [if_neg hst, if_neg hmu]
          have hsess : (removeFromIdleS m (removeFromIdleS uid
              { s with waitingQueue := q1, waitingIndex := w1 })).activeSessions
              = s.activeSessions := by
            rw [removeFromIdleS_sessions, removeFromIdleS_sessions]
          refine ⟨?_, ?_, ?_⟩
          · intro u
            show countHas (aset (removeFromIdleS m (removeFromIdleS uid
              { s with waitingQueue := q1, waitingIndex := w1 })).activeSessions
              (uid ++ "-" ++ m ++ "-" ++ ts) (uid, m)) u ≤ 1
            rw [hsess]
            by_cases hpu : pairHas (uid, m) u = true
            · rcases (pairHas_pair_iff uid m u).mp hpu with he | he
              · have h1 := countHas_aset_le_one s.activeSessions
                  (uid ++ "-" ++ m ++ "-" ++ ts) (uid, m) u
                rw [he] at huid
                omega
              · have h1 := countHas_aset_le_one s.activeSessions
                  (uid ++ "-" ++ m ++ "-" ++ ts) (uid, m) u
                rw [he] at hmz
                omega
            · have hpf : pairHas (uid, m) u = false := by
                cases hval : pairHas (uid, m) u with
                | false => rfl
                | true => exact absurd hval hpu
              have h1 := countHas_aset_of_false s.activeSessions
                (uid ++ "-" ++ m ++ "-" ++ ts) (uid, m) u hpf
              have h2 := h.1 u
              omega
          · intro v hv
            by_cases hve : v = ""
            · exact Or.inr hve
            · left
              have hv2 : scontains (removeFromIdleS m (removeFromIdleS uid
                  { s with waitingQueue := q1, waitingIndex := w1 })).waitingIndex v
                  = true := hv
              have hv1 : scontains w1 v = true :=
                removeFromIdleS_widx_subset uid _ (removeFromIdleS_widx_subset m _ hv2)
              have hvwi : scontains s.waitingIndex v = true :=
                scontains_of_sremove (hw1 ▸ hv1)
              have hvm : ¬(v = m) := by
                intro he
                rw [he, hw1] at hv1
                rw [scontains_sremove_self] at hv1
                exact Bool.noConfusion hv1
              have hvuid : ¬(v = uid) := by
                by_cases hue : uid = ""
                · intro he
                  exact hve (he.trans hue)
                · intro he
                  have habs := removeFromIdleS_widx_absent m
                    (removeFromIdleS uid { s with waitingQueue := q1, waitingIndex := w1 })
                    (removeFromIdleS_widx_self _ hue)
                  rw [he] at hv2
                  exact Bool.noConfusion ((hv2.symm.trans habs))
              have hcz : countHas s.activeSessions v = 0 := by
                rcases h.2.1 v hvwi with h0 | he
                · exact h0
                · exact absurd he hve
              show countHas (aset (removeFromIdleS m (removeFromIdleS uid
                { s with waitingQueue := q1, waitingIndex := w1 })).activeSessions
                (uid ++ "-" ++ m ++ "-" ++ ts) (uid, m)) v = 0
              rw [hsess]
              exact countHas_zero_aset hcz
                (pairHas_pair_false (fun hh => hvuid hh.symm) (fun hh => hvm hh.symm))
          · show aget (removeFromIdleS m (removeFromIdleS uid
              { s with waitingQueue := q1, waitingIndex := w1 })).userConnectionMap "" = none
            rw [removeFromIdleS_map, removeFromIdleS_map]
            exact h.2.2

theorem sessInv_nextChat (c ts key : String) (s : HubState) (h : SessInv s) :
    SessInv (nextChat c ts key s) := by
  cases hp : aget s.connectionProfiles c with
  | none => simp only [nextChat, hp]; exact h
  | some pr =>
    rcases pr with ⟨uid, g⟩
    simp only [nextChat, hp]
    have hs1 : SessInv { s with
        activeSessions := s.activeSessions.filter (fun p => !(pairHas p.2 uid)),
        sessionKeys := s.sessionKeys.filter
          (fun kv => !(scontains (sidsOf s.activeSessions uid) kv.1)) } := by
      refine sessInv_shrink ?_ ?_ ?_ h
      · exact fun u => countHas_filter_le _ _ u
      · exact fun u hu => hu
      · exact h.2.2
    have hs2 := sessInv_removeFromIdle uid _ hs1
    have hs3 : SessInv { removeFromIdleS uid { s with
        activeSessions := s.activeSessions.filter (fun p => !(pairHas p.2 uid)),
        sessionKeys := s.sessionKeys.filter
          (fun kv => !(scontains (sidsOf s.activeSessions uid) kv.1)) } with
        waitingIndex := sremove (removeFromIdleS uid { s with
          activeSessions := s.activeSessions.filter (fun p => !(pairHas p.2 uid)),
          sessionKeys := s.sessionKeys.filter
            (fun kv => !(scontains (sidsOf s.activeSessions uid) kv.1)) }).waitingIndex uid } := by
      refine sessInv_shrink ?_ ?_ ?_ hs2
      · exact fun u => Nat.le_refl _
      · exact fun u hu => scontains_of_sremove hu
      · exact hs2.2.2
    have hz3 : countHas (removeFromIdleS uid { s with
        activeSessions := s.activeSessions.filter (fun p => !(pairHas p.2 uid)),
        sessionKeys := s.sessionKeys.filter
          (fun kv => !(scontains (sidsOf s.activeSessions uid) kv.1)) }).activeSessions uid = 0 := by
      rw [removeFromIdleS_sessions]
      exact countHas_filter_not_self _ uid
    have hs4 := sessInv_enqueue uid _ hs3 hz3
    refine sessInv_joinChat c ts key _ hs4 ?_
    intro uid' g' hp'
    rw [enqueueWaitingS_profiles] at hp'
    dsimp only at hp'
    rw [removeFromIdleS_profiles] at hp'
    dsimp only at hp'
    rw [hp] at hp'
    injection hp' with hpair
    have huu : uid = uid' := congrArg Prod.fst hpair
    rw [enqueueWaitingS_sessions]
    dsimp only
    rw [removeFromIdleS_sessions]
    dsimp only
    rw [← huu]
    exact countHas_filter_not_self _ uid

theorem sessInv_step (s : HubState) (op : Op) (h : SessInv s)
    (hok : joinAllowedB s op = true) : SessInv (step s op) := by
  cases op with
  | connect c uid =>
    by_cases hu : uid = ""
    · simp only [step, onConnected, if_pos hu]
      refine sessInv_shrink ?_ ?_ ?_ h
      · exact fun u => Nat.le_refl _
      · exact fun u hv => hv
      · exact h.2.2
    · simp only [step, onConnected, if_neg hu]
      refine sessInv_shrink ?_ ?_ ?_ h
      · exact fun u => Nat.le_refl _
      · exact fun u hv => hv
      · show aget (aset s.userConnectionMap uid _) "" = none
        rw [aget_aset_of_ne _ _ (fun hh => hu hh.symm)]
        exact h.2.2
  | register c name =>
    simp only [step, registerUser]
    split
    · refine sessInv_shrink ?_ ?_ ?_ h
      · exact fun u => Nat.le_refl _
      · exact fun u hv => hv
      · exact h.2.2
    · exact h
  | join c ts key =>
    simp only [step]
    refine sessInv_joinChat c ts key s h ?_
    intro uid g hp
    simp only [joinAllowedB, hp] at hok
    exact of_decide_eq_true hok
  | skip c sid =>
    simp only [step, skipChat]
    split
    · exact h
    · split
      · exact h
      · refine sessInv_shrink ?_ ?_ ?_ h
        · exact fun u => countHas_aremove_le _ _ _
        · exact fun u hv => scontains_of_sremove (scontains_of_sremove hv)
        · exact h.2.2
  | next c ts key => exact sessInv_nextChat c ts key s h
  | sendMsg c sid msg =>
    simp only [step, sendMessage]
    split
    · refine sessInv_shrink ?_ ?_ ?_ h
      · exact fun u => Nat.le_refl _
      · exact fun u hv => hv
      · exact h.2.2
    · split
      · refine sessInv_shrink ?_ ?_ ?_ h
        · exact fun u => Nat.le_refl _
        · exact fun u hv => hv
        · exact h.2.2
      · split
        · refine sessInv_shrink ?_ ?_ ?_ h
          · exact fun u => Nat.le_refl _
          · exact fun u hv => hv
          · exact h.2.2
        · refine sessInv_shrink ?_ ?_ ?_ h
          · exact fun u => Nat.le_refl _
          · exact fun u hv => hv
          · exact h.2.2
  | sendVoice c sid audio =>
    simp only [step, sendVoiceNote]
    split
    · refine sessInv_shrink ?_ ?_ ?_ h
      · exact fun u => Nat.le_refl _
      · exact fun u hv => hv
      · exact h.2.2
    · refine sessInv_shrink ?_ ?_ ?_ h
      · exact fun u => Nat.le_refl _
      · exact fun u hv => hv
      · exact h.2.2
  | sendImg c sid fu b64 =>
    simp only [step, sendImage]
    split
    · refine sessInv_shrink ?_ ?_ ?_ h
      · exact fun u => Nat.le_refl _
      · exact fun u hv => hv
      · exact h.2.2
    · refine sessInv_shrink ?_ ?_ ?_ h
      · exact fun u => Nat.le_refl _
      · exact fun u hv => hv
      · exact h.2.2
  | detach c =>
    cases hp : aget s.connectionProfiles c with
    | none =>
      simp only [step, disconnectDetach, hp]
      refine sessInv_shrink ?_ ?_ ?_ h
      · exact fun u => Nat.le_refl _
      · exact fun u hv => hv
      · exact h.2.2
    | some pr =>
      rcases pr with ⟨uid, g⟩
      cases hm : aget s.userConnectionMap uid with
      | none =>
        simp only [step, disconnectDetach, hp, hm]
        refine sessInv_shrink ?_ ?_ ?_ h
        · exact fun u => Nat.le_refl _
        · exact fun u hv => hv
        · exact h.2.2
      | some conns =>
        have hmn : aget (aset s.userConnectionMap uid (sremove conns c)) "" = none := by
          by_cases huid : uid = ""
          · rw [huid] at hm
            rw [h.2.2] at hm
            exact Option.noConfusion hm
          · rw [aget_aset_of_ne _ _ (fun hh => huid hh.symm)]
            exact h.2.2
        simp only [step, disconnectDetach, hp, hm]
        split
        · refine sessInv_shrink ?_ ?_ ?_ h
          · exact fun u => Nat.le_refl _
          · exact fun u hv => hv
          · exact hmn
        · refine sessInv_shrink ?_ ?_ ?_ h
          · exact fun u => Nat.le_refl _
          · exact fun u hv => hv
          · exact hmn
  | grace uid dname =>
    have hmn1 : aget (aremove s.userConnectionMap uid) "" = none := by
      by_cases huid : uid = ""
      · rw [huid]
        exact aget_aremove_self _ _
      · rw [aget_aremove_of_ne _ (fun hh => huid hh.symm)]
        exact h.2.2
    simp only [step, graceExpire]
    split
    · refine sessInv_shrink ?_ ?_ ?_ h
      · exact fun u => Nat.le_refl _
      · exact fun u hv => hv
      · exact h.2.2
    · split
      · refine sessInv_shrink ?_ ?_ ?_ h
        · exact fun u => Nat.le_refl _
        · exact fun u hv => scontains_of_sremove hv
        · exact hmn1
      · refine sessInv_shrink ?_ ?_ ?_ h
        · exact fun u => countHas_aremove_le _ _ _
        · exact fun u hv => scontains_of_sremove (scontains_of_sremove hv)
        · exact hmn1
  | removeU uid =>
    cases hm : aget s.userConnectionMap uid with
    | none => simp only [step, removeUser, hm]; exact h
    | some conns =>
      have hmn1 : aget (aremove s.userConnectionMap uid) "" = none := by
        by_cases huid : uid = ""
        · rw [huid]
          exact aget_aremove_self _ _
        · rw [aget_aremove_of_ne _ (fun hh => huid hh.symm)]
          exact h.2.2
      simp only [step, removeUser, hm]
      apply sessInv_removeUserSessions
      refine sessInv_shrink ?_ ?_ ?_ h
      · exact fun u => Nat.le_refl _
      · exact fun u hv => scontains_of_sremove hv
      · exact hmn1
  | joinSess c sid uid =>
    simp only [step, joinSession]
    split
    · exact h
    · refine sessInv_shrink ?_ ?_ ?_ h
      · exact fun u => Nat.le_refl _
      · exact fun u hv => hv
      · exact h.2.2
  | acceptC c sid fu tu =>
    refine sessInv_shrink ?_ ?_ ?_ h
    · exact fun u => Nat.le_refl _
    · exact fun u hv => hv
    · exact h.2.2
  | rejectC c sid fu tu =>
    refine sessInv_shrink ?_ ?_ ?_ h
    · exact fun u => Nat.le_refl _
    · exact fun u hv => hv
    · exact h.2.2

theorem sessInv_reachR {s : HubState} (h : ReachRestricted s) : SessInv s := by
  induction h with
  | base =>
    refine ⟨fun u => Nat.zero_le 1, fun u hu => ?_, rfl⟩
    exact absurd hu (by simp [init, scontains])
  | step op hprev hok ih =>
    rw [Bool.and_eq_true] at hok
    exact sessInv_step _ op ih hok.2

/-- C2 amended: in every state reachable by interleavings in which `JoinChat`
is only invoked on behalf of identities that are in no active session, every
identity is a participant of at most one entry of the session table. -/
theorem c2_amended_single_session (s : HubState) (h : ReachRestricted s) :
    ∀ uid, countHas s.activeSessions uid ≤ 1 :=
  (sessInv_reachR h).1

/-- C2 amended, witness: the invariant evaluated on the concrete restricted
trace where alice and bob join once each and get matched. -/
theorem c2_amended_witness :
    countHas c6State.activeSessions "alice" ≤ 1 :=
  c2_amended_single_session c6State
    (reachVia_runOps (fun s' op => enabledB s' op && joinAllowedB s' op)
      [Op.connect "A" "alice", Op.connect "B" "bob",
       Op.join "A" "1" "kA", Op.join "B" "2" "kB"] ReachVia.base (by decide)) "alice"

theorem aremove_sublist {β : Type} (l : List (String × β)) (k : String) :
    List.Sublist (aremove l k) l := by
  induction l with
  | nil => exact List.Sublist.refl []
  | cons p t ih =>
    rw [aremove]
    split
    · exact List.Sublist.cons p ih
    · exact List.Sublist.cons₂ p ih

theorem mem_keys_aset {β : Type} {l : List (String × β)} {k x : String} {v : β}
    (h : x ∈ (aset l k v).map (fun p => p.1)) :
    x ∈ l.map (fun p => p.1) ∨ x = k := by
  induction l with
  | nil =>
    rw [aset] at h
    exact Or.inr (List.mem_singleton.mp h)
  | cons p t ih =>
    rcases p with ⟨k1, v1⟩
    rw [aset] at h
    by_cases hk : k1 = k
    · rw [if_pos hk] at h
      rcases List.mem_cons.mp h with he | hm
      · exact Or.inr he
      · exact Or.inl (List.mem_cons_of_mem _ hm)
    · rw [if_neg hk] at h
      rcases List.mem_cons.mp h with he | hm
      · exact Or.inl (List.mem_cons.mpr (Or.inl he))
      · rcases ih hm with h1 | h2
        · exact Or.inl (List.mem_cons.mpr (Or.inr h1))
        · exact Or.inr h2

theorem keys_nodup_aset {β : Type} {l : List (String × β)} (k : String) (v : β)
    (hn : (l.map (fun p => p.1)).Nodup) :
    ((aset l k v).map (fun p => p.1)).Nodup := by
  induction l with
  | nil => simp [aset]
  | cons p t ih =>
    rcases p with ⟨k1, v1⟩
    rw [List.map_cons] at hn
    rcases List.nodup_cons.mp hn with ⟨hk1, ht⟩
    rw [aset]
    by_cases hk : k1 = k
    · rw [if_pos hk, List.map_cons]
      exact List.nodup_cons.mpr ⟨hk ▸ hk1, ht⟩
    · rw [if_neg hk, List.map_cons]
      refine List.nodup_cons.mpr ⟨fun hm => ?_, ih ht⟩
      rcases mem_keys_aset hm with h1 | h2
      · exact hk1 h1
      · exact hk h2

theorem aget_some_mem_keys {β : Type} {l : List (String × β)} {c : String} {v : β}
    (h : aget l c = some v) : c ∈ l.map (fun p => p.1) := by
  induction l with
  | nil => exact absurd h (by simp [aget])
  | cons p t ih =>
    rcases p with ⟨k1, v1⟩
    rw [aget] at h
    by_cases hk : k1 = c
    · exact hk ▸ List.mem_cons_self _ _
    · rw [if_neg hk] at h
      exact List.mem_cons_of_mem _ (ih h)

theorem aget_filter_some {β : Type} {l : List (String × β)} {f : String × β → Bool}
    {c : String} {v : β} (hn : (l.map (fun p => p.1)).Nodup)
    (h : aget (l.filter f) c = some v) : aget l c = some v ∧ f (c, v) = true := by
  induction l with
  | nil => exact absurd h (by simp [aget])
  | cons p t ih =>
    rcases p with ⟨k1, v1⟩
    rw [List.map_cons] at hn
    rcases List.nodup_cons.mp hn with ⟨hk1, ht⟩
    rw [List.filter_cons] at h
    by_cases hf : f (k1, v1) = true
    · rw [if_pos hf, aget] at h
      by_cases hk : k1 = c
      · rw [if_pos hk] at h
        injection h with hv
        subst hv
        subst hk
        exact ⟨by rw [aget, if_pos rfl], hf⟩
      · rw [if_neg hk] at h
        obtain ⟨h1, h2⟩ := ih ht h
        exact ⟨by rw [aget, if_neg hk]; exact h1, h2⟩
    · rw [if_neg hf] at h
      obtain ⟨h1, h2⟩ := ih ht h
      have hkc : ¬(k1 = c) := by
        intro he
        exact hk1 (he ▸ aget_some_mem_keys h1)
      exact ⟨by rw [aget, if_neg hkc]; exact h1, h2⟩

theorem aget_filter_of_true {β : Type} {l : List (String × β)} {f : String × β → Bool}
    {c : String} {v : β} (h : aget l c = some v) (hf : f (c, v) = true) :
    aget (l.filter f) c = some v := by
  induction l with
  | nil => exact absurd h (by simp [aget])
  | cons p t ih =>
    rcases p with ⟨k1, v1⟩
    rw [aget] at h
    rw [List.filter_cons]
    by_cases hk : k1 = c
    · rw [if_pos hk] at h
      injection h with hv
      rw [if_pos (by rw [hk, hv]; exact hf), aget, if_pos hk]
      rw [hv]
    · rw [if_neg hk] at h
      by_cases hfk : f (k1, v1) = true
      · rw [if_pos hfk, aget, if_neg hk]
        exact ih h
      · rw [if_neg hfk]
        exact ih h

theorem keyCount_zero_of_not_mem {β : Type} {l : List (String × β)} {c : String}
    (h : ¬(c ∈ l.map (fun p => p.1))) : keyCount l c = 0 := by
  induction l with
  | nil => rfl
  | cons p t ih =>
    rcases p with ⟨k1, v1⟩
    rw [List.map_cons] at h
    have hk1 : ¬(k1 = c) := fun he => h (List.mem_cons.mpr (Or.inl he.symm))
    have hnm : ¬(c ∈ t.map (fun p => p.1)) := fun hm => h (List.mem_cons.mpr (Or.inr hm))
    rw [keyCount, if_neg hk1, ih hnm]

theorem keyCount_one_of_aget_nodup {β : Type} {l : List (String × β)} {c : String} {v : β}
    (hn : (l.map (fun p => p.1)).Nodup) (h : aget l c = some v) : keyCount l c = 1 := by
  induction l with
  | nil => exact Option.noConfusion h
  | cons p t ih =>
    rcases p with ⟨k1, v1⟩
    rw [List.map_cons] at hn
    rcases List.nodup_cons.mp hn with ⟨hk1, ht⟩
    rw [aget] at h
    rw [keyCount]
    by_cases hk : k1 = c
    · rw [if_pos hk]
      have hnm : ¬(c ∈ t.map (fun p => p.1)) := fun hm => hk1 (hk.symm ▸ hm)
      rw [keyCount_zero_of_not_mem hnm]
    · rw [if_neg hk] at h
      rw [if_neg hk, ih ht h]

theorem removeFromIdleS_live (u : String) (s : HubState) :
    (removeFromIdleS u s).live = s.live := by
  rw [removeFromIdleS]; split <;> rfl

theorem enqueueWaitingS_live (u : String) (s : HubState) :
    (enqueueWaitingS u s).live = s.live := by
  rw [enqueueWaitingS]; split <;> rfl

theorem regInvEq {s s' : HubState} (h1 : s'.userConnectionMap = s.userConnectionMap)
    (h2 : s'.connectionProfiles = s.connectionProfiles) (h3 : s'.live = s.live)
    (h : RegInv s) : RegInv s' := by
  unfold RegInv at h ⊢
  rw [h1, h2, h3]
  exact h

theorem regInv_enqueue (u : String) (s : HubState) (h : RegInv s) :
    RegInv (enqueueWaitingS u s) :=
  regInvEq (enqueueWaitingS_map u s) (enqueueWaitingS_profiles u s) (enqueueWaitingS_live u s) h

theorem regInv_removeFromIdle (u : String) (s : HubState) (h : RegInv s) :
    RegInv (removeFromIdleS u s) :=
  regInvEq (removeFromIdleS_map u s) (removeFromIdleS_profiles u s) (removeFromIdleS_live u s) h

theorem regInv_joinChat (c ts key : String) (s : HubState) (h : RegInv s) :
    RegInv (joinChat c ts key s) := by
  cases hp : aget s.connectionProfiles c with
  | none =>
    simp only [joinChat, hp]
    exact regInvEq rfl rfl rfl h
  | some pr =>
    rcases pr with ⟨uid, g⟩
    rcases hdq : tryDequeueWaiting s.waitingQueue s.waitingIndex with ⟨mo, q1, w1⟩
    cases mo with
    | none =>
      simp only [joinChat, hp, hdq]
      exact regInvEq rfl rfl rfl (regInv_enqueue uid _ (regInvEq rfl rfl rfl h))
    | some m =>
      by_cases hst : staleUser s m = true
      · simp only [joinChat, hp, hdq]
        rw [if_pos hst]
        exact regInvEq rfl rfl rfl (regInv_enqueue uid _ (regInvEq rfl rfl rfl h))
      · by_cases hm : m = uid
        · simp only [joinChat, hp, hdq]
          rw [if_neg hst, if_pos hm]
          exact regInvEq rfl rfl rfl (regInv_enqueue uid _ (regInvEq rfl rfl rfl h))
        · simp only [joinChat, hp, hdq]
          rw [if_neg hst, if_neg hm]
          exact regInvEq rfl rfl rfl
            (regInv_removeFromIdle m _ (regInv_removeFromIdle uid _ (regInvEq rfl rfl rfl h)))

theorem regInv_nextChat (c ts key : String) (s : HubState) (h : RegInv s) :
    RegInv (nextChat c ts key s) := by
  cases hp : aget s.connectionProfiles c with
  | none => simp only [nextChat, hp]; exact h
  | some pr =>
    rcases pr with ⟨uid, g⟩
    simp only [nextChat, hp]
    refine regInv_joinChat c ts key _ (regInv_enqueue uid _ ?_)
    refine regInvEq rfl rfl rfl (regInv_removeFromIdle uid _ ?_)
    exact regInvEq rfl rfl rfl h

theorem regInv_removeUserSessions (uid : String) (ls : List (String × String × String))
    (s : HubState) (h : RegInv s) : RegInv (removeUserSessions uid ls s) := by
  induction ls generalizing s with
  | nil => exact h
  | cons p rest ih =>
    rcases p with ⟨sid, u1, u2⟩
    rw [removeUserSessions]
    split
    · exact ih _ (regInvEq rfl rfl rfl h)
    · exact ih _ h

theorem regInv_onConnected_core (s : HubState) (c uid : String) (conns : List String)
    (E : List Evt) (h : RegInv s) (hlive : scontains s.live c = false)
    (hnp : aget s.connectionProfiles c = none)
    (hsub : ∀ x, scontains conns x = true →
       x = c ∨ ∃ cs, aget s.userConnectionMap uid = some cs ∧ scontains cs x = true)
    (hsup : ∀ cs x, aget s.userConnectionMap uid = some cs → scontains cs x = true →
       scontains conns x = true)
    (hcc : scontains conns c = true) :
    RegInv { s with live := s.live ++ [c],
                    userConnectionMap := aset s.userConnectionMap uid conns,
                    connectionProfiles := aset s.connectionProfiles c (uid, ""),
                    events := E } := by
  obtain ⟨h1, h2, h3, h4⟩ := h
  refine ⟨?_, ?_, ?_, ?_⟩
  · intro uid' conns' c' hmc hcc'
    have hmc2 : aget (aset s.userConnectionMap uid conns) uid' = some conns' := hmc
    show ∃ g, aget (aset s.connectionProfiles c (uid, "")) c' = some (uid', g)
    by_cases hu : uid' = uid
    · subst hu
      rw [aget_aset_self] at hmc2
      injection hmc2 with he
      subst he
      rcases hsub c' hcc' with he2 | ⟨cs, hgm, hgc⟩
      · subst he2
        exact ⟨"", by rw [aget_aset_self]⟩
      · obtain ⟨g, hg⟩ := h1 uid' cs c' hgm hgc
        have hne : c' ≠ c := fun he3 => by rw [he3, hnp] at hg; exact Option.noConfusion hg
        exact ⟨g, by rw [aget_aset_of_ne _ _ hne]; exact hg⟩
    · rw [aget_aset_of_ne _ _ hu] at hmc2
      obtain ⟨g, hg⟩ := h1 uid' conns' c' hmc2 hcc'
      have hne : c' ≠ c := fun he3 => by rw [he3, hnp] at hg; exact Option.noConfusion hg
      exact ⟨g, by rw [aget_aset_of_ne _ _ hne]; exact hg⟩
  · intro c' uid'' g hpc
    have hpc2 : aget (aset s.connectionProfiles c (uid, "")) c' = some (uid'', g) := hpc
    show ∃ conns2, aget (aset s.userConnectionMap uid conns) uid'' = some conns2 ∧
      scontains conns2 c' = true
    by_cases hc' : c' = c
    · subst hc'
      rw [aget_aset_self] at hpc2
      injection hpc2 with hpr
      injection hpr with ha hb
      refine ⟨conns, ?_, hcc⟩
      rw [← ha, aget_aset_self]
    · rw [aget_aset_of_ne _ _ hc'] at hpc2
      obtain ⟨cs0, hm0, hc0⟩ := h2 c' uid'' g hpc2
      by_cases hu : uid'' = uid
      · subst hu
        exact ⟨conns, by rw [aget_aset_self], hsup cs0 c' hm0 hc0⟩
      · refine ⟨cs0, ?_, hc0⟩
        rw [aget_aset_of_ne _ _ hu]
        exact hm0
  · intro c' pr hpc
    have hpc2 : aget (aset s.connectionProfiles c (uid, "")) c' = some pr := hpc
    show scontains (s.live ++ [c]) c' = true
    rw [scontains_append]
    by_cases hc' : c' = c
    · subst hc'
      have hs1 : scontains [c'] c' = true := by rw [scontains, if_pos rfl]
      rw [hs1, Bool.or_true]
    · rw [aget_aset_of_ne _ _ hc'] at hpc2
      rw [h3 c' pr hpc2, Bool.true_or]
  · show ((aset s.connectionProfiles c (uid, "")).map (fun p => p.1)).Nodup
    exact keys_nodup_aset c (uid, "") h4

theorem regInv_detach_noprof (s : HubState) (c : String) (E : List Evt) (h : RegInv s)
    (hp : aget s.connectionProfiles c = none) :
    RegInv { s with live := sremove s.live c, events := E } := by
  obtain ⟨h1, h2, h3, h4⟩ := h
  refine ⟨h1, h2, ?_, h4⟩
  intro c' pr hpc
  have hpc2 : aget s.connectionProfiles c' = some pr := hpc
  have hne : c' ≠ c := by
    intro he
    rw [he, hp] at hpc2
    exact Option.noConfusion hpc2
  show scontains (sremove s.live c) c' = true
  rw [scontains_sremove_of_ne _ hne]
  exact h3 c' pr hpc2

theorem regInv_detach_core (s : HubState) (c uid g0 : String) (conns : List String)
    (E : List Evt) (h : RegInv s) (hp : aget s.connectionProfiles c = some (uid, g0))
    (hm : aget s.userConnectionMap uid = some conns) :
    RegInv { s with live := sremove s.live c,
                    connectionProfiles := aremove s.connectionProfiles c,
                    userConnectionMap := aset s.userConnectionMap uid (sremove conns c),
                    events := E } := by
  obtain ⟨h1, h2, h3, h4⟩ := h
  refine ⟨?_, ?_, ?_, ?_⟩
  · intro uid' conns' c' hmc hcc
    have hmc2 : aget (aset s.userConnectionMap uid (sremove conns c)) uid' = some conns' := hmc
    have hcc2 : scontains conns' c' = true := hcc
    show ∃ g, aget (aremove s.connectionProfiles c) c' = some (uid', g)
    by_cases hu : uid' = uid
    · subst hu
      rw [aget_aset_self] at hmc2
      injection hmc2 with he
      subst he
      have hcin : scontains conns c' = true := scontains_of_sremove hcc2
      have hne : c' ≠ c := by
        intro he2
        rw [he2, scontains_sremove_self] at hcc2
        exact Bool.noConfusion hcc2
      obtain ⟨g, hg⟩ := h1 uid' conns c' hm hcin
      exact ⟨g, by rw [aget_aremove_of_ne _ hne]; exact hg⟩
    · rw [aget_aset_of_ne _ _ hu] at hmc2
      obtain ⟨g, hg⟩ := h1 uid' conns' c' hmc2 hcc2
      have hne : c' ≠ c := by
        intro he2
        rw [he2, hp] at hg
        injection hg with hpr
        injection hpr with ha hb
        exact hu ha.symm
      exact ⟨g, by rw [aget_aremove_of_ne _ hne]; exact hg⟩
  · intro c' uid'' g hpc
    have hpc2 : aget (aremove s.connectionProfiles c) c' = some (uid'', g) := hpc
    show ∃ conns2, aget (aset s.userConnectionMap uid (sremove conns c)) uid'' = some conns2 ∧
      scontains conns2 c' = true
    have hne : c' ≠ c := by
      intro he
      rw [he, aget_aremove_self] at hpc2
      exact Option.noConfusion hpc2
    rw [aget_aremove_of_ne _ hne] at hpc2
    obtain ⟨cs0, hm0, hc0⟩ := h2 c' uid'' g hpc2
    by_cases hu : uid'' = uid
    · subst hu
      rw [hm] at hm0
      injection hm0 with he0
      subst he0
      refine ⟨sremove conns c, by rw [aget_aset_self], ?_⟩
      rw [scontains_sremove_of_ne _ hne]
      exact hc0
    · refine ⟨cs0, ?_, hc0⟩
      rw [aget_aset_of_ne _ _ hu]
      exact hm0
  · intro c' pr hpc
    have hpc2 : aget (aremove s.connectionProfiles c) c' = some pr := hpc
    show scontains (sremove s.live c) c' = true
    have hne : c' ≠ c := by
      intro he
      rw [he, aget_aremove_self] at hpc2
      exact Option.noConfusion hpc2
    rw [aget_aremove_of_ne _ hne] at hpc2
    rw [scontains_sremove_of_ne _ hne]
    exact h3 c' pr hpc2
  · show ((aremove s.connectionProfiles c).map (fun p => p.1)).Nodup
    exact List.Nodup.sublist ((aremove_sublist s.connectionProfiles c).map _) h4

theorem regInv_detach_nomap (s : HubState) (c uid g0 : String) (E : List Evt) (h : RegInv s)
    (hp : aget s.connectionProfiles c = some (uid, g0))
    (hm : aget s.userConnectionMap uid = none) :
    RegInv { s with live := sremove s.live c,
                    connectionProfiles := aremove s.connectionProfiles c,
                    events := E } := by
  obtain ⟨h1, h2, h3, h4⟩ := h
  refine ⟨?_, ?_, ?_, ?_⟩
  · intro uid' conns' c' hmc hcc
    have hmc2 : aget s.userConnectionMap uid' = some conns' := hmc
    obtain ⟨g, hg⟩ := h1 uid' conns' c' hmc2 hcc
    have hne : c' ≠ c := by
      intro he
      rw [he, hp] at hg
      injection hg with hpr
      injection hpr with ha hb
      rw [← ha, hm] at hmc2
      exact Option.noConfusion hmc2
    show ∃ g2, aget (aremove s.connectionProfiles c) c' = some (uid', g2)
    exact ⟨g, by rw [aget_aremove_of_ne _ hne]; exact hg⟩
  · intro c' uid'' g hpc
    have hpc2 : aget (aremove s.connectionProfiles c) c' = some (uid'', g) := hpc
    have hne : c' ≠ c := by
      intro he
      rw [he, aget_aremove_self] at hpc2
      exact Option.noConfusion hpc2
    rw [aget_aremove_of_ne _ hne] at hpc2
    exact h2 c' uid'' g hpc2
  · intro c' pr hpc
    have hpc2 : aget (aremove s.connectionProfiles c) c' = some pr := hpc
    have hne : c' ≠ c := by
      intro he
      rw [he, aget_aremove_self] at hpc2
      exact Option.noConfusion hpc2
    rw [aget_aremove_of_ne _ hne] at hpc2
    show scontains (sremove s.live c) c' = true
    rw [scontains_sremove_of_ne _ hne]
    exact h3 c' pr hpc2
  · show ((aremove s.connectionProfiles c).map (fun p => p.1)).Nodup
    exact List.Nodup.sublist ((aremove_sublist s.connectionProfiles c).map _) h4

theorem regInv_grace_core (s : HubState) (uid : String) (s' : HubState) (h : RegInv s)
    (hnc : ∀ conns, aget s.userConnectionMap uid = some conns → conns.isEmpty = true)
    (hmap : s'.userConnectionMap = aremove s.userConnectionMap uid)
    (hprof : s'.connectionProfiles = s.connectionProfiles)
    (hlive : s'.live = s.live) : RegInv s' := by
  obtain ⟨h1, h2, h3, h4⟩ := h
  unfold RegInv
  rw [hmap, hprof, hlive]
  refine ⟨?_, ?_, h3, h4⟩
  · intro uid' conns' c' hmc hcc
    have hne : uid' ≠ uid := by
      intro he
      rw [he, aget_aremove_self] at hmc
      exact Option.noConfusion hmc
    rw [aget_aremove_of_ne _ hne] at hmc
    exact h1 uid' conns' c' hmc hcc
  · intro c' uid'' g hpc
    obtain ⟨cs0, hm0, hc0⟩ := h2 c' uid'' g hpc
    have hne : uid'' ≠ uid := by
      intro he
      rw [he] at hm0
      have h5 := hnc cs0 hm0
      rw [isEmpty_false_of_scontains hc0] at h5
      exact Bool.noConfusion h5
    exact ⟨cs0, by rw [aget_aremove_of_ne _ hne]; exact hm0, hc0⟩

theorem regInv_step (s : HubState) (op : Op) (h : RegInv s)
    (hen : enabledB s op = true) (hnj : notJoinSessB op = true) : RegInv (step s op) := by
  cases op with
  | connect c uid =>
    have hen2 : (!(scontains s.live c)) = true := hen
    have hlive : scontains s.live c = false := by
      cases hv : scontains s.live c with
      | false => rfl
      | true => rw [hv] at hen2; exact Bool.noConfusion hen2
    have hnp : aget s.connectionProfiles c = none := by
      cases hq : aget s.connectionProfiles c with
      | none => rfl
      | some pr => rw [h.2.2.1 c pr hq] at hlive; exact Bool.noConfusion hlive
    by_cases hu : uid = ""
    · simp only [step, onConnected, if_pos hu]
      exact regInvEq rfl rfl rfl h
    · cases hm : aget s.userConnectionMap uid with
      | some cs =>
        have hcf : scontains cs c = false := by
          cases hv : scontains cs c with
          | false => rfl
          | true =>
            obtain ⟨g, hg⟩ := h.1 uid cs c hm hv
            rw [hnp] at hg
            exact Option.noConfusion hg
        simp only [step, onConnected, if_neg hu, hm]
        rw [if_neg (show ¬(scontains cs c = true) from by rw [hcf]; exact Bool.false_ne_true)]
        refine regInv_onConnected_core s c uid (cs ++ [c]) _ h hlive hnp ?_ ?_ ?_
        · intro x hx
          rw [scontains_append] at hx
          rcases (Bool.or_eq_true _ _).mp hx with h5 | h6
          · exact Or.inr ⟨cs, hm, h5⟩
          · exact Or.inl (scontains_singleton h6).symm
        · intro cs2 x hm2 hx2
          rw [hm] at hm2
          injection hm2 with he
          subst he
          rw [scontains_append, hx2, Bool.true_or]
        · rw [scontains_append, hcf, Bool.false_or, scontains, if_pos rfl]
      | none =>
        simp only [step, onConnected, if_neg hu, hm]
        refine regInv_onConnected_core s c uid [c] _ h hlive hnp ?_ ?_ ?_
        · intro x hx
          exact Or.inl (scontains_singleton hx).symm
        · intro cs2 x hm2 hx2
          rw [hm] at hm2
          exact Option.noConfusion hm2
        · rw [scontains, if_pos rfl]
  | register c name =>
    simp only [step, registerUser]
    split
    · rename_i uid g0 hp
      obtain ⟨h1, h2, h3, h4⟩ := h
      refine ⟨?_, ?_, ?_, ?_⟩
      · intro uid' conns' c' hmc hcc
        have hmc2 : aget s.userConnectionMap uid' = some conns' := hmc
        obtain ⟨g', hg⟩ := h1 uid' conns' c' hmc2 hcc
        show ∃ g2, aget (aset s.connectionProfiles c (uid, name)) c' = some (uid', g2)
        by_cases hc' : c' = c
        · subst hc'
          rw [hp] at hg
          injection hg with hpr
          injection hpr with ha hb
          exact ⟨name, by rw [aget_aset_self, ha]⟩
        · exact ⟨g', by rw [aget_aset_of_ne _ _ hc']; exact hg⟩
      · intro c' uid'' g2 hpc
        have hpc2 : aget (aset s.connectionProfiles c (uid, name)) c' = some (uid'', g2) := hpc
        show ∃ conns2, aget s.userConnectionMap uid'' = some conns2 ∧ scontains conns2 c' = true
        by_cases hc' : c' = c
        · subst hc'
          rw [aget_aset_self] at hpc2
          injection hpc2 with hpr
          injection hpr with ha hb
          obtain ⟨conns2, hm2, hs2⟩ := h2 c' uid g0 hp
          exact ⟨conns2, by rw [← ha]; exact hm2, hs2⟩
        · rw [aget_aset_of_ne _ _ hc'] at hpc2
          exact h2 c' uid'' g2 hpc2
      · intro c' pr hpc
        have hpc2 : aget (aset s.connectionProfiles c (uid, name)) c' = some pr := hpc
        show scontains s.live c' = true
        by_cases hc' : c' = c
        · subst hc'
          exact h3 c' (uid, g0) hp
        · rw [aget_aset_of_ne _ _ hc'] at hpc2
          exact h3 c' pr hpc2
      · show ((aset s.connectionProfiles c (uid, name)).map (fun p => p.1)).Nodup
        exact keys_nodup_aset c (uid, name) h4
    · exact h
  | join c ts key => exact regInv_joinChat c ts key s h
  | skip c sid =>
    simp only [step, skipChat]
    split
    · exact h
    · split
      · exact h
      · exact regInvEq rfl rfl rfl h
  | next c ts key => exact regInv_nextChat c ts key s h
  | sendMsg c sid msg =>
    simp only [step, sendMessage]
    split
    · exact regInvEq rfl rfl rfl h
    · split
      · exact regInvEq rfl rfl rfl h
      · split
        · exact regInvEq rfl rfl rfl h
        · exact regInvEq rfl rfl rfl h
  | sendVoice c sid audio =>
    simp only [step, sendVoiceNote]
    split
    · exact regInvEq rfl rfl rfl h
    · exact regInvEq rfl rfl rfl h
  | sendImg c sid fu b64 =>
    simp only [step, sendImage]
    split
    · exact regInvEq rfl rfl rfl h
    · exact regInvEq rfl rfl rfl h
  | detach c =>
    simp only [step, disconnectDetach]
    split
    · rename_i hp
      exact regInv_detach_noprof s c _ h hp
    · rename_i uid g0 hp
      split
      · rename_i conns hmc
        split
        · exact regInv_detach_core s c uid g0 conns _ h hp hmc
        · exact regInv_detach_core s c uid g0 conns _ h hp hmc
      · rename_i hmn
        exact regInv_detach_nomap s c uid g0 _ h hp hmn
  | grace uid dname =>
    simp only [step, graceExpire]
    split
    · exact regInvEq rfl rfl rfl h
    · rename_i hco
      have hnc : ∀ conns2, aget s.userConnectionMap uid = some conns2 → conns2.isEmpty = true := by
        intro conns2 hmc
        cases hie : conns2.isEmpty with
        | true => rfl
        | false =>
          exfalso
          apply hco
          rw [hmc]
          show (!conns2.isEmpty) = true
          rw [hie]
          rfl
      split
      · exact regInv_grace_core s uid _ h hnc rfl rfl rfl
      · exact regInv_grace_core s uid _ h hnc rfl rfl rfl
  | removeU uid =>
    simp only [step, removeUser]
    split
    · exact h
    · rename_i conns hm
      refine regInv_removeUserSessions uid _ _ ?_
      obtain ⟨h1, h2, h3, h4⟩ := h
      refine ⟨?_, ?_, ?_, ?_⟩
      · intro uid' conns' c' hmc hcc
        have hmc2 : aget (aremove s.userConnectionMap uid) uid' = some conns' := hmc
        have hne : uid' ≠ uid := by
          intro he
          rw [he, aget_aremove_self] at hmc2
          exact Option.noConfusion hmc2
        rw [aget_aremove_of_ne _ hne] at hmc2
        obtain ⟨g, hg⟩ := h1 uid' conns' c' hmc2 hcc
        show ∃ g2, aget (s.connectionProfiles.filter (fun pr => !(scontains conns pr.1))) c' =
          some (uid', g2)
        refine ⟨g, aget_filter_of_true hg ?_⟩
        show (!(scontains conns c')) = true
        cases hv : scontains conns c' with
        | false => rfl
        | true =>
          exfalso
          obtain ⟨g2, hg2⟩ := h1 uid conns c' hm hv
          rw [hg2] at hg
          injection hg with hpr
          injection hpr with ha hb
          exact hne ha.symm
      · intro c' uid'' g hpc
        have hpc2 : aget (s.connectionProfiles.filter (fun pr => !(scontains conns pr.1))) c' =
          some (uid'', g) := hpc
        obtain ⟨hold, hf⟩ := aget_filter_some h4 hpc2
        have hnc2 : scontains conns c' = false := by
          have hf2 : (!(scontains conns c')) = true := hf
          cases hv : scontains conns c' with
          | false => rfl
          | true => rw [hv] at hf2; exact Bool.noConfusion hf2
        obtain ⟨cs0, hm0, hc0⟩ := h2 c' uid'' g hold
        have hne : uid'' ≠ uid := by
          intro he
          rw [he, hm] at hm0
          injection hm0 with he0
          rw [← he0] at hc0
          rw [hnc2] at hc0
          exact Bool.noConfusion hc0
        show ∃ conns2, aget (aremove s.userConnectionMap uid) uid'' = some conns2 ∧
          scontains conns2 c' = true
        exact ⟨cs0, by rw [aget_aremove_of_ne _ hne]; exact hm0, hc0⟩
      · intro c' pr hpc
        have hpc2 : aget (s.connectionProfiles.filter (fun pr => !(scontains conns pr.1))) c' =
          some pr := hpc
        obtain ⟨hold, hf⟩ := aget_filter_some h4 hpc2
        show scontains s.live c' = true
        exact h3 c' pr hold
      · show ((s.connectionProfiles.filter (fun pr => !(scontains conns pr.1))).map
          (fun p => p.1)).Nodup
        exact List.Nodup.sublist ((List.filter_sublist _).map _) h4
  | joinSess c sid uid => exact Bool.noConfusion hnj
  | acceptC c sid fu tu => exact regInvEq rfl rfl rfl h
  | rejectC c sid fu tu => exact regInvEq rfl rfl rfl h

theorem regInv_reachNJ {s : HubState} (h : ReachNoJoinSession s) : RegInv s := by
  induction h with
  | base =>
    refine ⟨?_, ?_, ?_, ?_⟩
    · intro uid conns c hmc
      exact Option.noConfusion hmc
    · intro c uid g hpc
      exact Option.noConfusion hpc
    · intro c pr hpc
      exact Option.noConfusion hpc
    · exact List.nodup_nil
  | step op hprev hok ih =>
    rw [Bool.and_eq_true] at hok
    exact regInv_step _ op ih hok.1 hok.2

/-- C7 amended: in every state reachable without the `JoinSession` recovery
operation, every connection id listed in the identity-to-connections mapping
has exactly one profile entry, and that entry carries the same identity; and
every connection id with a profile entry is listed in the mapping under its
profile's identity. -/
theorem c7_amended_registry_invariant (s : HubState) (h : ReachNoJoinSession s) :
    (∀ uid conns c, aget s.userConnectionMap uid = some conns → scontains conns c = true →
       keyCount s.connectionProfiles c = 1 ∧ ∃ g, aget s.connectionProfiles c = some (uid, g)) ∧
    (∀ c uid g, aget s.connectionProfiles c = some (uid, g) →
       ∃ conns, aget s.userConnectionMap uid = some conns ∧ scontains conns c = true) := by
  obtain ⟨h1, h2, h3, h4⟩ := regInv_reachNJ h
  refine ⟨?_, h2⟩
  intro uid conns c hm hc
  obtain ⟨g, hg⟩ := h1 uid conns c hm hc
  exact ⟨keyCount_one_of_aget_nodup h4 hg, g, hg⟩

/-- C7 amended, witness: the registry invariant evaluated after a single
connect, a `JoinSession`-free trace. -/
theorem c7_amended_witness :
    keyCount (runOps init [Op.connect "A" "alice"]).connectionProfiles "A" = 1 :=
  ((c7_amended_registry_invariant (runOps init [Op.connect "A" "alice"])
      (reachVia_runOps (fun s' op => enabledB s' op && notJoinSessB op)
        [Op.connect "A" "alice"] ReachVia.base (by decide))).1
    "alice" ["A"] "A" (by decide) (by decide)).1

end Connecto
